import Mathlib

/-!
# neoplayer: the playback coordinator of the View and the Host's directory scan

A shallow embedding of `src/js/renderer.js` (the View) and of the
`read-directory` handler and tray menu of `src/main.js` (the Host).

* JavaScript strings are `String`; the operations on them are written over
  the character list `String.data`.
* `String.prototype.toLowerCase` is a library function (a Unicode case
  table); every function that calls it takes it as the argument `lower`, and
  the theorems hold for every such function.
* The module-level variables of the View and the parts of the page it
  writes are the fields of `State`; `alert` and `console.error` append to
  the logs `alerts` and `consoleErrors`.
* Numbers that can be `NaN` or infinite are `JSNumber`, with exact rational
  arithmetic on the finite ones (rounding of doubles and signed zero are not
  represented).
-/

namespace NeoPlayer

/-! ## Strings -/

/-- The pieces of a character list between occurrences of `sep`; the list of
pieces is never empty (`"".split(".")` is `[""]`). -/
def splitChars (sep : Char) : List Char → List (List Char)
  | [] => [[]]
  | c :: cs =>
    if c = sep then [] :: splitChars sep cs
    else
      match splitChars sep cs with
      | [] => [[c]]
      | seg :: rest => (c :: seg) :: rest

/-- The array `s.split(sep)` for a one-character separator. -/
def split (s : String) (sep : Char) : List String :=
  (splitChars sep s.data).map String.mk

/-- The value of `Array.prototype.pop` on an array of strings; the arrays it
is applied to come from `split` and are never empty. -/
def pop (parts : List String) : String :=
  parts.getLastD ""

/-- The method `padStart(targetLength, padChar)` for a one-character pad. -/
def padStart (s : String) (targetLength : Nat) (padChar : Char) : String :=
  String.mk (List.replicate (targetLength - s.data.length) padChar ++ s.data)

/-- The ASCII part of `toLowerCase`: the instance of `lower` at which the
definitions are evaluated on concrete paths. -/
def asciiLower (s : String) : String :=
  String.mk (s.data.map Char.toLower)

/-! ## Numbers -/

/-- A JavaScript number: not-a-number, an infinity, or a finite value. -/
inductive JSNumber where
  | nan
  | posInf
  | negInf
  | fin (q : ℚ)
  deriving DecidableEq

/-- The result of `Math.floor`: not-a-number, an infinity, or an integer. -/
inductive JSIntegral where
  | nan
  | posInf
  | negInf
  | int (z : Int)
  deriving DecidableEq

namespace JSNumber

/-- The global `isNaN` on a number. -/
def isNaN : JSNumber → Bool
  | nan => true
  | _ => false

/-- The operator `/`. -/
def div : JSNumber → JSNumber → JSNumber
  | nan, _ => nan
  | _, nan => nan
  | posInf, posInf => nan
  | posInf, negInf => nan
  | negInf, posInf => nan
  | negInf, negInf => nan
  | posInf, fin b => if b < 0 then negInf else posInf
  | negInf, fin b => if b < 0 then posInf else negInf
  | fin _, posInf => fin 0
  | fin _, negInf => fin 0
  | fin a, fin b =>
    if b = 0 then (if a = 0 then nan else if a < 0 then negInf else posInf)
    else fin (a / b)

/-- The operator `*`. -/
def mul : JSNumber → JSNumber → JSNumber
  | nan, _ => nan
  | _, nan => nan
  | posInf, posInf => posInf
  | posInf, negInf => negInf
  | negInf, posInf => negInf
  | negInf, negInf => posInf
  | posInf, fin b => if b = 0 then nan else if b < 0 then negInf else posInf
  | negInf, fin b => if b = 0 then nan else if b < 0 then posInf else negInf
  | fin a, posInf => if a = 0 then nan else if a < 0 then negInf else posInf
  | fin a, negInf => if a = 0 then nan else if a < 0 then posInf else negInf
  | fin a, fin b => fin (a * b)

/-- The integer part of a rational, rounding toward zero. -/
def truncate (q : ℚ) : Int :=
  if 0 ≤ q then Rat.floor q else - Rat.floor (-q)

/-- The operator `%`: the remainder has the sign of the dividend. -/
def rem : JSNumber → JSNumber → JSNumber
  | nan, _ => nan
  | _, nan => nan
  | posInf, _ => nan
  | negInf, _ => nan
  | fin a, posInf => fin a
  | fin a, negInf => fin a
  | fin a, fin b => if b = 0 then nan else fin (a - b * (truncate (a / b) : ℚ))

/-- The function `Math.floor`. -/
def floor : JSNumber → JSIntegral
  | nan => JSIntegral.nan
  | posInf => JSIntegral.posInf
  | negInf => JSIntegral.negInf
  | fin q => JSIntegral.int (Rat.floor q)

/-- The comparison `a <= b`; it is false as soon as one side is `NaN`. -/
def le : JSNumber → JSNumber → Bool
  | nan, _ => false
  | _, nan => false
  | negInf, _ => true
  | _, posInf => true
  | posInf, _ => false
  | _, negInf => false
  | fin a, fin b => decide (a ≤ b)

/-- The comparison `a < b`; it is false as soon as one side is `NaN`. -/
def lt : JSNumber → JSNumber → Bool
  | nan, _ => false
  | _, nan => false
  | posInf, _ => false
  | _, negInf => false
  | negInf, _ => true
  | _, posInf => true
  | fin a, fin b => decide (a < b)

end JSNumber

/-- The decimal digits of a natural number, as `Number.prototype.toString`
writes an integer below `10^21`. -/
def natToString (n : Nat) : String :=
  String.mk (Nat.toDigits 10 n)

/-- The method `toString()` on the result of `Math.floor`. Integers are
written in decimal, which is what JavaScript does below `10^21` in absolute
value. -/
def JSIntegral.toString : JSIntegral → String
  | JSIntegral.nan => "NaN"
  | JSIntegral.posInf => "Infinity"
  | JSIntegral.negInf => "-Infinity"
  | JSIntegral.int (Int.ofNat n) => natToString n
  | JSIntegral.int (Int.negSucc n) => String.mk ('-' :: (natToString (n + 1)).data)

/-! ## The View: state -/

/-- The `type` field of a playlist entry: the strings `'video'` and `'audio'`. -/
inductive MediaType where
  | video
  | audio
  deriving DecidableEq

/-- A playlist entry `{ name, path, type }`. -/
structure MediaFile where
  name : String
  path : String
  type : MediaType
  deriving DecidableEq

/-- The two playback surfaces of the page that `currentPlayer` can refer to. -/
inductive PlayerRef where
  | videoPlayer
  | audioPlayer
  deriving DecidableEq

/-- The attributes of a media element that the View reads or writes.
`currentTime` and `volume` are finite by the element's interface;
`duration` is `NaN` until the metadata is known and may be infinite. -/
structure MediaElement where
  src : String
  display : String
  controls : Bool
  paused : Bool
  currentTime : ℚ
  duration : JSNumber
  volume : ℚ
  deriving DecidableEq

/-- The element method `load()`: the element's load algorithm pauses the
element, puts the playback position at 0 and forgets the duration. -/
def MediaElement.load (e : MediaElement) : MediaElement :=
  { e with paused := true, currentTime := 0, duration := JSNumber.nan }

/-- The element method `play()`. -/
def MediaElement.play (e : MediaElement) : MediaElement :=
  { e with paused := false }

/-- The element method `pause()`. -/
def MediaElement.pause (e : MediaElement) : MediaElement :=
  { e with paused := true }

/-- An `li.playlist-item` made by `updatePlaylist`: the `file` and `index`
its click listener closes over, and whether it carries the class `active`. -/
structure PlaylistItem where
  file : MediaFile
  index : Nat
  active : Bool
  deriving DecidableEq

/-- The module-level variables of the View (`currentPlayer`,
`currentMediaIndex`, `mediaFiles`, `isPlaying`), the two media elements, and
the parts of the page the View writes. `volumeSlider` is the integer that the
slider's value denotes, `progressWidth` the number written before the `%`
sign of `progress.style.width`. -/
structure State where
  videoPlayer : MediaElement
  audioPlayer : MediaElement
  currentPlayer : Option PlayerRef
  currentMediaIndex : Int
  mediaFiles : List MediaFile
  isPlaying : Bool
  playlist : List PlaylistItem
  currentFileName : String
  placeholderDisplay : String
  customControlsDisplay : String
  playIcon : String
  volumeSlider : Int
  progressWidth : Option JSNumber
  currentTimeDisplay : String
  durationDisplay : String
  alerts : List String
  consoleErrors : List String
  deriving DecidableEq

/-- The element a reference stands for. -/
def State.player (s : State) : PlayerRef → MediaElement
  | PlayerRef.videoPlayer => s.videoPlayer
  | PlayerRef.audioPlayer => s.audioPlayer

/-- Write through a reference to an element. -/
def State.setPlayer (s : State) (r : PlayerRef) (e : MediaElement) : State :=
  match r with
  | PlayerRef.videoPlayer => { s with videoPlayer := e }
  | PlayerRef.audioPlayer => { s with audioPlayer := e }

/-- The state right after the module has been evaluated and
`DOMContentLoaded` has run: the four `let` initialisers, no playlist item
created yet, native controls hidden. Everything else comes from the page. -/
def IsStartup (s : State) : Prop :=
  s.currentPlayer = none ∧ s.currentMediaIndex = -1 ∧ s.mediaFiles = [] ∧
  s.isPlaying = false ∧ s.playlist = [] ∧
  s.videoPlayer.controls = false ∧ s.audioPlayer.controls = false

instance (s : State) : Decidable (IsStartup s) := by
  unfold IsStartup; infer_instance

/-- A page at startup whose media elements have the attributes of fresh
elements and whose volume slider stands at 100: the state at which the
definitions are evaluated on concrete inputs. -/
def startupState : State :=
  { videoPlayer :=
      { src := "", display := "", controls := false, paused := true,
        currentTime := 0, duration := JSNumber.nan, volume := 1 }
    audioPlayer :=
      { src := "", display := "", controls := false, paused := true,
        currentTime := 0, duration := JSNumber.nan, volume := 1 }
    currentPlayer := none
    currentMediaIndex := -1
    mediaFiles := []
    isPlaying := false
    playlist := []
    currentFileName := ""
    placeholderDisplay := ""
    customControlsDisplay := ""
    playIcon := ""
    volumeSlider := 100
    progressWidth := none
    currentTimeDisplay := ""
    durationDisplay := ""
    alerts := []
    consoleErrors := [] }

/-- A state in which the video surface is active and playing `d/a.mp4`, 30
seconds into 120: the state at which the progress and transport statements
are evaluated. -/
def playingState : State :=
  { startupState with
    videoPlayer :=
      { src := "d/a.mp4", display := "block", controls := false, paused := false,
        currentTime := 30, duration := JSNumber.fin 120, volume := 1 }
    currentPlayer := some PlayerRef.videoPlayer
    currentMediaIndex := 0
    mediaFiles := [{ name := "a.mp4", path := "d/a.mp4", type := MediaType.video }]
    playlist :=
      [{ file := { name := "a.mp4", path := "d/a.mp4", type := MediaType.video },
         index := 0, active := true }]
    isPlaying := true }

/-! ## The View: playlist and loading -/

/-- The extensions `loadMediaFile` sends to the video surface. -/
def videoExtensions : List String := ["mp4", "avi", "mkv", "mov", "webm"]

/-- The extensions `loadMediaFile` sends to the audio surface. -/
def audioExtensions : List String := ["mp3", "wav", "flac", "m4a", "ogg"]

/-- The expression `filePath.toLowerCase().split('.').pop()`. -/
def fileExt (lower : String → String) (filePath : String) : String :=
  pop (split (lower filePath) '.')

/-- The expression `filePath.split('/').pop().split('\\').pop()`. -/
def fileName (filePath : String) : String :=
  pop (split (pop (split filePath '/')) '\\')

/-- The method `findIndex`, counting from position `i`; `-1` when no element
satisfies the predicate. -/
def findIndexFrom (p : MediaFile → Bool) : List MediaFile → Nat → Int
  | [], _ => -1
  | x :: xs, i => if p x then (i : Int) else findIndexFrom p xs (i + 1)

/-- The method `Array.prototype.findIndex`. -/
def findIndex (p : MediaFile → Bool) (l : List MediaFile) : Int :=
  findIndexFrom p l 0

/-- The element `arr[i]` of an array for a number `i`: `none` is
`undefined`. -/
def arrayGet (l : List MediaFile) (i : Int) : Option MediaFile :=
  if i < 0 then none else l.get? i.toNat

/-- The list items `updatePlaylist` creates, from position `i` on. -/
def renderItems (current : Int) : List MediaFile → Nat → List PlaylistItem
  | [], _ => []
  | f :: fs, i =>
    { file := f, index := i, active := decide ((i : Int) = current) } ::
      renderItems current fs (i + 1)

/-- The function `updatePlaylist`: empty the list element and make one item
per entry of `mediaFiles`. -/
def updatePlaylist (s : State) : State :=
  { s with playlist := renderItems s.currentMediaIndex s.mediaFiles 0 }

/-- The class toggling of `highlightCurrentPlaylistItem`, from position `i`
on. -/
def highlightItems (current : Int) : List PlaylistItem → Nat → List PlaylistItem
  | [], _ => []
  | it :: its, i =>
    { it with active := decide ((i : Int) = current) } ::
      highlightItems current its (i + 1)

/-- The function `highlightCurrentPlaylistItem`. -/
def highlightCurrentPlaylistItem (s : State) : State :=
  { s with playlist := highlightItems s.currentMediaIndex s.playlist 0 }

/-- The function `loadMediaFile`. The source comments the assignment of
`src` with "Load and play the file"; the code calls `load()` and no
`play()`, and so does this definition. -/
def loadMediaFile (lower : String → String) (filePath : String) (s : State) : State :=
  let ext := fileExt lower filePath
  let isVideo : Bool := decide (ext ∈ videoExtensions)
  let isAudio : Bool := decide (ext ∈ audioExtensions)
  if !isVideo && !isAudio then
    { s with alerts := s.alerts ++ ["Unsupported file format"] }
  else
    let s1 : State := { s with placeholderDisplay := "none", customControlsDisplay := "flex" }
    let s2 : State :=
      if isVideo then
        { s1 with
          videoPlayer := { s1.videoPlayer with display := "block" }
          audioPlayer := { s1.audioPlayer with display := "none" }
          currentPlayer := some PlayerRef.videoPlayer }
      else
        { s1 with
          videoPlayer := { s1.videoPlayer with display := "none" }
          audioPlayer := { s1.audioPlayer with display := "block" }
          currentPlayer := some PlayerRef.audioPlayer }
    let r : PlayerRef := if isVideo then PlayerRef.videoPlayer else PlayerRef.audioPlayer
    let s3 : State := s2.setPlayer r (MediaElement.load { s2.player r with src := filePath })
    let s4 : State := { s3 with currentFileName := fileName filePath }
    let s5 : State :=
      if !(s4.mediaFiles.any (fun file => decide (file.path = filePath))) then
        let pushed : List MediaFile :=
          s4.mediaFiles ++
            [{ name := fileName filePath, path := filePath,
               type := if isVideo then MediaType.video else MediaType.audio }]
        updatePlaylist
          { s4 with mediaFiles := pushed, currentMediaIndex := (pushed.length : Int) - 1 }
      else
        { s4 with
          currentMediaIndex := findIndex (fun file => decide (file.path = filePath)) s4.mediaFiles }
    highlightCurrentPlaylistItem s5

/-- The function `loadMediaFolder`, from the point where the awaited
`ipcRenderer.invoke('read-directory', folderPath)` settles: `result` is the
array it resolved with, or the message of the error it rejected with. The
source comments the call on the first entry with "Auto-play first file"; the
call loads the entry and starts no playback. -/
def loadMediaFolder (lower : String → String) (result : Except String (List MediaFile))
    (s : State) : State :=
  match result with
  | Except.ok entries =>
    let s1 : State := updatePlaylist { s with mediaFiles := entries, currentMediaIndex := -1 }
    match s1.mediaFiles with
    | [] => s1
    | first :: _ => loadMediaFile lower first.path { s1 with currentMediaIndex := 0 }
  | Except.error message =>
    { s with
      consoleErrors := s.consoleErrors ++ ["Error loading folder: " ++ message]
      alerts := s.alerts ++ ["Error loading folder: " ++ message] }

/-- The click listener `updatePlaylist` attaches to the item at position `k`
of the list; clicking where there is no item does nothing. -/
def clickPlaylistItem (lower : String → String) (k : Nat) (s : State) : State :=
  match s.playlist.get? k with
  | none => s
  | some item => loadMediaFile lower item.file.path { s with currentMediaIndex := item.index }

/-- The function `playNext`. Reading `.path` of a missing element throws
after the cursor has been assigned; the state is then left as it is. -/
def playNext (lower : String → String) (s : State) : State :=
  if s.mediaFiles.length = 0 then s
  else
    let s1 : State :=
      { s with currentMediaIndex := Int.tmod (s.currentMediaIndex + 1) s.mediaFiles.length }
    match arrayGet s1.mediaFiles s1.currentMediaIndex with
    | none => s1
    | some file => loadMediaFile lower file.path s1

/-- The function `playPrevious`. -/
def playPrevious (lower : String → String) (s : State) : State :=
  if s.mediaFiles.length = 0 then s
  else
    let s1 : State :=
      { s with
        currentMediaIndex :=
          if s.currentMediaIndex ≤ 0 then (s.mediaFiles.length : Int) - 1
          else s.currentMediaIndex - 1 }
    match arrayGet s1.mediaFiles s1.currentMediaIndex with
    | none => s1
    | some file => loadMediaFile lower file.path s1

/-! ## The View: transport, volume, progress -/

/-- The function `togglePlayPause`. -/
def togglePlayPause (s : State) : State :=
  match s.currentPlayer with
  | none => s
  | some r =>
    if (s.player r).paused then s.setPlayer r (s.player r).play
    else s.setPlayer r (s.player r).pause

/-- The function `updatePlayState`: `isPlaying` and the class of the two
play/pause button icons. -/
def updatePlayState (playing : Bool) (s : State) : State :=
  { s with
    isPlaying := playing
    playIcon := "fas " ++ (if playing then "fa-pause" else "fa-play") }

/-- The function `stopPlayback`. -/
def stopPlayback (s : State) : State :=
  match s.currentPlayer with
  | none => s
  | some r =>
    updatePlayState false (s.setPlayer r { (s.player r).pause with currentTime := 0 })

/-- The function `seek`: the sum is assigned to `currentTime` (the element's
own clamping to the seekable range is not represented). -/
def seek (seconds : ℚ) (s : State) : State :=
  match s.currentPlayer with
  | none => s
  | some r =>
    s.setPlayer r { s.player r with currentTime := (s.player r).currentTime + seconds }

/-- The function `updateVolume`. -/
def updateVolume (s : State) : State :=
  match s.currentPlayer with
  | none => s
  | some r => s.setPlayer r { s.player r with volume := (s.volumeSlider : ℚ) / 100 }

/-- The function `formatTime`. The division and the remainder are exact
here. For a finite argument below `2^53` the code's double arithmetic gives
the same whole minutes and whole seconds, and `toString` writes them in plain
decimal; the statements about `formatTime` are made for that range. Beyond
it the double quotient can round up to the next integer, and from `10^21`
on `toString` switches to exponent form. -/
def formatTime (seconds : JSNumber) : String :=
  if seconds.isNaN then "00:00"
  else
    let mins := (seconds.div (JSNumber.fin 60)).floor
    let secs := (seconds.rem (JSNumber.fin 60)).floor
    padStart mins.toString 2 '0' ++ ":" ++ padStart secs.toString 2 '0'

/-- The function `updateProgress`. -/
def updateProgress (s : State) : State :=
  match s.currentPlayer with
  | none => s
  | some r =>
    let currentTime := JSNumber.fin (s.player r).currentTime
    let duration := (s.player r).duration
    if !duration.isNaN then
      { s with
        progressWidth := some ((currentTime.div duration).mul (JSNumber.fin 100))
        currentTimeDisplay := formatTime currentTime
        durationDisplay := formatTime duration }
    else s

/-- The function `handlePlayerCommand`; a command outside the `switch` does
nothing. -/
def handlePlayerCommand (lower : String → String) (command : String) (s : State) : State :=
  if command = "toggle-play" ∨ command = "play" ∨ command = "pause" then togglePlayPause s
  else if command = "next" then playNext lower s
  else if command = "previous" then playPrevious lower s
  else if command = "forward-10" then seek 10 s
  else if command = "backward-10" then seek (-10) s
  else if command = "volume-up" then
    updateVolume { s with volumeSlider := min 100 (s.volumeSlider + 10) }
  else if command = "volume-down" then
    updateVolume { s with volumeSlider := max 0 (s.volumeSlider - 10) }
  else s

/-- Handle a sequence of commands, one after the other. -/
def handlePlayerCommands (lower : String → String) (commands : List String) (s : State) : State :=
  commands.foldl (fun st command => handlePlayerCommand lower command st) s

/-! ## The Host -/

/-- The tray menu of `createTray`: each label with the `player-control`
command its click sends, if it sends one. -/
def trayMenu : List (String × Option String) :=
  [("Show Player", none), ("Pause", some "pause"), ("Play", some "play"),
   ("Next", some "next"), ("Previous", some "previous"), ("Quit", none)]

/-- The extensions the `read-directory` handler keeps. -/
def hostExtensions : List String :=
  [".mp4", ".avi", ".mkv", ".mov", ".mp3", ".wav", ".flac", ".m4a"]

/-- The extensions the `read-directory` handler types `'audio'`. -/
def hostAudioExtensions : List String := [".mp3", ".wav", ".flac", ".m4a"]

/-- What the `read-directory` handler produces: the array it answers with
and the lines it writes with `console.error`. -/
structure HostReply where
  entries : List MediaFile
  errors : List String
  deriving DecidableEq

/-- The handler of `read-directory`. `readdir` is the outcome of
`fs.readdir(dirPath)`: the names in the directory, or the message of the
error it failed with. `extname` and `join` are `path.extname` and
`path.join` of the platform. -/
def readDirectory (lower : String → String) (extname : String → String)
    (join : String → String → String) (readdir : Except String (List String))
    (dirPath : String) : HostReply :=
  match readdir with
  | Except.ok files =>
    { entries :=
        (files.filter (fun file => decide (lower (extname file) ∈ hostExtensions))).map
          (fun file =>
            { name := file
              path := join dirPath file
              type :=
                if lower (extname file) ∈ hostAudioExtensions then MediaType.audio
                else MediaType.video })
      errors := [] }
  | Except.error message =>
    { entries := [], errors := ["Error reading directory: " ++ message] }

/-- The View's `folder-opened` listener run against the Host's handler: the
invocation resolves with the handler's array. -/
def openFolder (lower : String → String) (extname : String → String)
    (join : String → String → String) (readdir : Except String (List String))
    (dirPath : String) (s : State) : State :=
  loadMediaFolder lower (Except.ok (readDirectory lower extname join readdir dirPath).entries) s

/-! ## Vocabulary of the statements -/

/-- A path passes the extension check of `loadMediaFile`. -/
def Supported (lower : String → String) (filePath : String) : Prop :=
  fileExt lower filePath ∈ videoExtensions ∨ fileExt lower filePath ∈ audioExtensions

instance (lower : String → String) (filePath : String) :
    Decidable (Supported lower filePath) := by
  unfold Supported; infer_instance

/-- The surface `loadMediaFile` selects for a path that passes the check:
the video surface for a video extension, the audio surface otherwise. -/
def surfaceOf (lower : String → String) (filePath : String) : PlayerRef :=
  if fileExt lower filePath ∈ videoExtensions then PlayerRef.videoPlayer
  else PlayerRef.audioPlayer

/-- The entry `loadMediaFile` pushes for a path that is not in the playlist. -/
def entryOf (lower : String → String) (filePath : String) : MediaFile :=
  { name := fileName filePath
    path := filePath
    type := if fileExt lower filePath ∈ videoExtensions then MediaType.video
            else MediaType.audio }

/-- The entries of a playlist have pairwise distinct paths. -/
def PathsDistinct (l : List MediaFile) : Prop :=
  (l.map MediaFile.path).Nodup

instance (l : List MediaFile) : Decidable (PathsDistinct l) := by
  unfold PathsDistinct; infer_instance

/-- Every entry of a playlist has a path that passes the extension check. -/
def AllSupported (lower : String → String) (l : List MediaFile) : Prop :=
  ∀ f ∈ l, Supported lower f.path

instance (lower : String → String) (l : List MediaFile) :
    Decidable (AllSupported lower l) := by
  unfold AllSupported; infer_instance

/-- An entry list as the directory scan hands it over: pairwise distinct
paths, each with a supported extension. -/
def FolderEntries (lower : String → String) (l : List MediaFile) : Prop :=
  PathsDistinct l ∧ AllSupported lower l

instance (lower : String → String) (l : List MediaFile) :
    Decidable (FolderEntries lower l) := by
  unfold FolderEntries; infer_instance

/-- A playlist of three entries at which the statements are evaluated. -/
def samplePlaylist : List MediaFile :=
  [{ name := "a.mp4", path := "d/a.mp4", type := MediaType.video },
   { name := "b.mp3", path := "d/b.mp3", type := MediaType.audio },
   { name := "c.mkv", path := "d/c.mkv", type := MediaType.video }]

/-- The two entries of the end-to-end example. -/
def sampleFolder : List MediaFile :=
  [{ name := "a.mp4", path := "d/a.mp4", type := MediaType.video },
   { name := "b.mp3", path := "d/b.mp3", type := MediaType.audio }]

/-- What a click listener of a playlist item closes over. -/
def itemData (item : PlaylistItem) : MediaFile × Nat :=
  (item.file, item.index)

/-- The items of the list element are those `updatePlaylist` makes for the
current `mediaFiles`, up to the class `active`. -/
def Rendered (s : State) : Prop :=
  s.playlist.map itemData = (renderItems 0 s.mediaFiles 0).map itemData

/-- The cursor is consistent with what is loaded: the playlist has distinct
supported paths and is what the list element shows, and either the cursor is
`-1` and the playlist is empty, or the cursor is a position of the playlist
and the active player is the surface for that entry, holding its path. -/
def Consistent (lower : String → String) (s : State) : Prop :=
  PathsDistinct s.mediaFiles ∧ AllSupported lower s.mediaFiles ∧ Rendered s ∧
  ((s.currentMediaIndex = -1 ∧ s.mediaFiles = []) ∨
    ∃ (k : Nat) (f : MediaFile),
      s.currentMediaIndex = (k : Int) ∧ s.mediaFiles.get? k = some f ∧
      s.currentPlayer = some (surfaceOf lower f.path) ∧
      (s.player (surfaceOf lower f.path)).src = f.path)

/-- Two states agree on the playlist, the cursor, the active-player
reference, the rendered items and the sources of both surfaces: the relation
between the states before and after any handler other than the loading and
navigation ones, and before and after any change the elements make to
themselves. -/
def SameSelection (s t : State) : Prop :=
  t.mediaFiles = s.mediaFiles ∧ t.currentMediaIndex = s.currentMediaIndex ∧
  t.currentPlayer = s.currentPlayer ∧ t.playlist = s.playlist ∧
  t.videoPlayer.src = s.videoPlayer.src ∧ t.audioPlayer.src = s.audioPlayer.src

/-- The states the View can be in: startup, then any sequence of file
loads, folder loads (the invocation resolving with an entry list that
satisfies `ok`, or rejecting), `playNext`, `playPrevious` and clicks on
playlist items, interleaved with steps that leave the selection alone. -/
inductive Reachable (lower : String → String) (ok : List MediaFile → Prop) : State → Prop where
  | startup (s : State) (h : IsStartup s) : Reachable lower ok s
  | file (s : State) (filePath : String) (h : Reachable lower ok s) :
      Reachable lower ok (loadMediaFile lower filePath s)
  | folder (s : State) (entries : List MediaFile) (h : Reachable lower ok s)
      (hok : ok entries) : Reachable lower ok (loadMediaFolder lower (Except.ok entries) s)
  | folderRejected (s : State) (message : String) (h : Reachable lower ok s) :
      Reachable lower ok (loadMediaFolder lower (Except.error message) s)
  | next (s : State) (h : Reachable lower ok s) : Reachable lower ok (playNext lower s)
  | previous (s : State) (h : Reachable lower ok s) : Reachable lower ok (playPrevious lower s)
  | click (s : State) (k : Nat) (h : Reachable lower ok s) :
      Reachable lower ok (clickPlaylistItem lower k s)
  | other (s t : State) (h : Reachable lower ok s) (hst : SameSelection s t) :
      Reachable lower ok t

/-- The state after `k` calls of `playNext`. -/
def playNextTimes (lower : String → String) : Nat → State → State
  | 0, s => s
  | k + 1, s => playNext lower (playNextTimes lower k s)

/-- The slider stands between 0 and 100 and both elements have a volume
between 0 and 1. -/
def VolumeInRange (s : State) : Prop :=
  (0 ≤ s.volumeSlider ∧ s.volumeSlider ≤ 100) ∧
  (0 ≤ s.videoPlayer.volume ∧ s.videoPlayer.volume ≤ 1) ∧
  (0 ≤ s.audioPlayer.volume ∧ s.audioPlayer.volume ≤ 1)

/-- Two states agree on the slider and on the volume of both elements. -/
def SameVolume (s t : State) : Prop :=
  t.volumeSlider = s.volumeSlider ∧ t.videoPlayer.volume = s.videoPlayer.volume ∧
  t.audioPlayer.volume = s.audioPlayer.volume

/-- The value of `path.extname` on a plain file name (one without a
separator), as `fs.readdir` returns them: the name from its last `.` on, and
the empty string when the name has no `.`, when its last `.` is its first
character, or when the name is `..`. It is the instance of `extname` at
which the handler is evaluated on concrete names. -/
def nameExtname (file : String) : String :=
  match (splitChars '.' file.data).reverse with
  | last :: _ :: _ =>
    if file = ".." ∨ file.data.length = last.length + 1 then ""
    else String.mk ('.' :: last)
  | _ => ""

/-- The value of `path.join` on a directory path without a trailing
separator and a plain file name, with the POSIX separator: the instance of
`join` at which the handler is evaluated on concrete names. -/
def posixJoin (dirPath file : String) : String :=
  dirPath ++ "/" ++ file

/-- A directory listing at which the handler is evaluated. -/
def sampleListing : List String :=
  ["a.MP4", "b.mp3", "notes.txt", ".mp4", "c.webm", "d.tar.MKV"]

/-! ## Lists -/

theorem any_path_iff (l : List MediaFile) (p : String) :
    l.any (fun file => decide (file.path = p)) = true ↔ p ∈ l.map MediaFile.path := by
  simp only [List.any_eq_true, decide_eq_true_eq, List.mem_map]

theorem findIndexFrom_of_get (l : List MediaFile) (k i : Nat) (f : MediaFile)
    (hd : PathsDistinct l) (hk : l.get? k = some f) :
    findIndexFrom (fun file => decide (file.path = f.path)) l i = ((i + k : Nat) : Int) := by
  induction l generalizing k i with
  | nil => simp at hk
  | cons x xs ih =>
    unfold PathsDistinct at hd
    rw [List.map_cons, List.nodup_cons] at hd
    cases k with
    | zero =>
      simp only [List.get?_cons_zero, Option.some.injEq] at hk
      subst hk
      simp [findIndexFrom]
    | succ k =>
      simp only [List.get?_cons_succ] at hk
      have hne : x.path ≠ f.path := by
        intro he
        apply hd.1
        rw [he]
        exact List.mem_map_of_mem MediaFile.path (List.get?_mem hk)
      have := ih k (i + 1) hd.2 hk
      simp only [findIndexFrom, hne, decide_False, Bool.false_eq_true, if_false, this]
      congr 1
      omega

theorem findIndex_of_get (l : List MediaFile) (k : Nat) (f : MediaFile)
    (hd : PathsDistinct l) (hk : l.get? k = some f) :
    findIndex (fun file => decide (file.path = f.path)) l = (k : Int) := by
  unfold findIndex
  rw [findIndexFrom_of_get l k 0 f hd hk]
  simp

theorem arrayGet_natCast (l : List MediaFile) (k : Nat) :
    arrayGet l (k : Int) = l.get? k := by
  simp [arrayGet]

theorem renderItems_get (c : Int) (l : List MediaFile) (i k : Nat) :
    (renderItems c l i).get? k =
      (l.get? k).map
        (fun f => { file := f, index := i + k, active := decide (((i + k : Nat) : Int) = c) }) := by
  induction l generalizing i k with
  | nil => simp [renderItems]
  | cons x xs ih =>
    cases k with
    | zero => simp [renderItems]
    | succ k =>
      simp only [renderItems, List.get?_cons_succ, ih]
      have : i + 1 + k = i + (k + 1) := by omega
      rw [this]

theorem renderItems_itemData (c d : Int) (l : List MediaFile) (i : Nat) :
    (renderItems c l i).map itemData = (renderItems d l i).map itemData := by
  induction l generalizing i with
  | nil => simp [renderItems]
  | cons x xs ih => simp [renderItems, itemData, ih]

theorem highlightItems_itemData (c : Int) (items : List PlaylistItem) (i : Nat) :
    (highlightItems c items i).map itemData = items.map itemData := by
  induction items generalizing i with
  | nil => simp [highlightItems]
  | cons x xs ih => simp [highlightItems, itemData, ih]

/-! ## `loadMediaFile`, field by field -/

theorem loadMediaFile_unsupported (lower : String → String) (p : String) (s : State)
    (h : ¬ Supported lower p) :
    loadMediaFile lower p s = { s with alerts := s.alerts ++ ["Unsupported file format"] } := by
  unfold Supported at h
  push_neg at h
  simp [loadMediaFile, h.1, h.2]

theorem loadMediaFile_index_irrelevant (lower : String → String) (p : String) (s : State)
    (x : Int) (h : Supported lower p) :
    loadMediaFile lower p { s with currentMediaIndex := x } = loadMediaFile lower p s := by
  unfold Supported at h
  by_cases hv : fileExt lower p ∈ videoExtensions
  · simp [loadMediaFile, hv, State.setPlayer, State.player, updatePlaylist,
      highlightCurrentPlaylistItem]
  · have ha : fileExt lower p ∈ audioExtensions := by tauto
    simp [loadMediaFile, hv, ha, State.setPlayer, State.player, updatePlaylist,
      highlightCurrentPlaylistItem]

theorem loadMediaFile_currentPlayer (lower : String → String) (p : String) (s : State)
    (h : Supported lower p) :
    (loadMediaFile lower p s).currentPlayer = some (surfaceOf lower p) ∧
    ((loadMediaFile lower p s).player (surfaceOf lower p)).src = p := by
  unfold Supported at h
  by_cases hv : fileExt lower p ∈ videoExtensions
  · by_cases hm : (s.mediaFiles.any (fun file => decide (file.path = p))) = true <;>
    simp [loadMediaFile, hv, hm, State.setPlayer, State.player, updatePlaylist,
      highlightCurrentPlaylistItem, surfaceOf, MediaElement.load]
  · have ha : fileExt lower p ∈ audioExtensions := by tauto
    by_cases hm : (s.mediaFiles.any (fun file => decide (file.path = p))) = true <;>
    simp [loadMediaFile, hv, ha, hm, State.setPlayer, State.player, updatePlaylist,
      highlightCurrentPlaylistItem, surfaceOf, MediaElement.load]

theorem loadMediaFile_present (lower : String → String) (p : String) (s : State)
    (h : Supported lower p) (hm : p ∈ s.mediaFiles.map MediaFile.path) :
    (loadMediaFile lower p s).mediaFiles = s.mediaFiles ∧
    (loadMediaFile lower p s).currentMediaIndex =
      findIndex (fun file => decide (file.path = p)) s.mediaFiles ∧
    (loadMediaFile lower p s).playlist.map itemData = s.playlist.map itemData := by
  have hm2 := (any_path_iff s.mediaFiles p).mpr hm
  unfold Supported at h
  by_cases hv : fileExt lower p ∈ videoExtensions
  · simp [loadMediaFile, hv, hm2, State.setPlayer, State.player, updatePlaylist,
      highlightCurrentPlaylistItem, highlightItems_itemData]
  · have ha : fileExt lower p ∈ audioExtensions := by tauto
    simp [loadMediaFile, hv, ha, hm2, State.setPlayer, State.player, updatePlaylist,
      highlightCurrentPlaylistItem, highlightItems_itemData]

theorem loadMediaFile_absent (lower : String → String) (p : String) (s : State)
    (h : Supported lower p) (hm : p ∉ s.mediaFiles.map MediaFile.path) :
    (loadMediaFile lower p s).mediaFiles = s.mediaFiles ++ [entryOf lower p] ∧
    (loadMediaFile lower p s).currentMediaIndex = (s.mediaFiles.length : Int) ∧
    (loadMediaFile lower p s).playlist.map itemData =
      (renderItems 0 (s.mediaFiles ++ [entryOf lower p]) 0).map itemData := by
  have hm2 : ¬ (s.mediaFiles.any (fun file => decide (file.path = p)) = true) :=
    fun hc => hm ((any_path_iff s.mediaFiles p).mp hc)
  unfold Supported at h
  by_cases hv : fileExt lower p ∈ videoExtensions
  · simp only [Bool.not_eq_true] at hm2
    simp [loadMediaFile, hv, hm2, State.setPlayer, State.player, updatePlaylist,
      highlightCurrentPlaylistItem, highlightItems_itemData, entryOf]
    exact renderItems_itemData _ _ _ _
  · have ha : fileExt lower p ∈ audioExtensions := by tauto
    simp only [Bool.not_eq_true] at hm2
    simp [loadMediaFile, hv, ha, hm2, State.setPlayer, State.player, updatePlaylist,
      highlightCurrentPlaylistItem, highlightItems_itemData, entryOf]
    exact renderItems_itemData _ _ _ _

/-! ## C1 -/

/-- C1. For every state and every path whose lower-cased text after its last
`.` is none of the ten allowed extensions, `loadMediaFile` leaves the
playlist, the cursor, the active-player reference and both media elements
(so the active player's source) as they were and emits the alert
`Unsupported file format`; the resulting state differs from the old one in
the alert log only. -/
theorem loadMediaFile_unsupported_no_change (lower : String → String) (filePath : String)
    (s : State)
    (h : fileExt lower filePath ∉
      ["mp4", "avi", "mkv", "mov", "webm", "mp3", "wav", "flac", "m4a", "ogg"]) :
    (loadMediaFile lower filePath s).mediaFiles = s.mediaFiles ∧
    (loadMediaFile lower filePath s).currentMediaIndex = s.currentMediaIndex ∧
    (loadMediaFile lower filePath s).currentPlayer = s.currentPlayer ∧
    (loadMediaFile lower filePath s).videoPlayer = s.videoPlayer ∧
    (loadMediaFile lower filePath s).audioPlayer = s.audioPlayer ∧
    (loadMediaFile lower filePath s).alerts = s.alerts ++ ["Unsupported file format"] ∧
    loadMediaFile lower filePath s =
      { s with alerts := s.alerts ++ ["Unsupported file format"] } := by
  have hn : ¬ Supported lower filePath := by
    unfold Supported videoExtensions audioExtensions
    intro hc
    apply h
    rcases hc with hc | hc <;> simp only [List.mem_cons, List.mem_singleton] at hc ⊢ <;> tauto
  rw [loadMediaFile_unsupported lower filePath s hn]
  simp

theorem loadMediaFile_unsupported_no_change_witness :
    fileExt asciiLower "notes.TXT" ∉
      ["mp4", "avi", "mkv", "mov", "webm", "mp3", "wav", "flac", "m4a", "ogg"] ∧
    (loadMediaFile asciiLower "notes.TXT" startupState).alerts = ["Unsupported file format"] :=
  ⟨by decide,
   (loadMediaFile_unsupported_no_change asciiLower "notes.TXT" startupState (by decide)).2.2.2.2.2.1⟩

/-! ## Loading an entry of the playlist -/

theorem mem_paths_of_get (l : List MediaFile) (k : Nat) (f : MediaFile)
    (hk : l.get? k = some f) : f.path ∈ l.map MediaFile.path :=
  List.mem_map_of_mem MediaFile.path (List.get?_mem hk)

/-- Loading the path of the entry at position `k` of a playlist with
distinct paths keeps the playlist and puts the cursor at `k`, whatever the
cursor was before. -/
theorem loadMediaFile_entry (lower : String → String) (s : State) (k : Nat) (f : MediaFile)
    (x : Int) (hd : PathsDistinct s.mediaFiles) (hk : s.mediaFiles.get? k = some f)
    (hs : Supported lower f.path) :
    (loadMediaFile lower f.path { s with currentMediaIndex := x }).mediaFiles = s.mediaFiles ∧
    (loadMediaFile lower f.path { s with currentMediaIndex := x }).currentMediaIndex = (k : Int) ∧
    (loadMediaFile lower f.path { s with currentMediaIndex := x }).currentPlayer =
      some (surfaceOf lower f.path) ∧
    ((loadMediaFile lower f.path { s with currentMediaIndex := x }).player
      (surfaceOf lower f.path)).src = f.path ∧
    (loadMediaFile lower f.path { s with currentMediaIndex := x }).playlist.map itemData =
      s.playlist.map itemData := by
  rw [loadMediaFile_index_irrelevant lower f.path s x hs]
  obtain ⟨h1, h2, h3⟩ := loadMediaFile_present lower f.path s hs (mem_paths_of_get _ k f hk)
  obtain ⟨h4, h5⟩ := loadMediaFile_currentPlayer lower f.path s hs
  rw [findIndex_of_get s.mediaFiles k f hd hk] at h2
  exact ⟨h1, h2, h4, h5, h3⟩

theorem tmod_succ_natCast (i n : Nat) :
    Int.tmod ((i : Int) + 1) (n : Int) = (((i + 1) % n : Nat) : Int) := by
  have : (i : Int) + 1 = ((i + 1 : Nat) : Int) := by push_cast; rfl
  rw [this]
  exact (Int.ofNat_tmod (i + 1) n).symm

/-- The function `playNext` on a playlist with distinct supported paths and
a cursor inside it. -/
theorem playNext_entry (lower : String → String) (s : State) (i : Nat)
    (hd : PathsDistinct s.mediaFiles) (hs : AllSupported lower s.mediaFiles)
    (hi : s.currentMediaIndex = (i : Int)) (hlt : i < s.mediaFiles.length) :
    ∃ f, s.mediaFiles.get? ((i + 1) % s.mediaFiles.length) = some f ∧
      (playNext lower s).mediaFiles = s.mediaFiles ∧
      (playNext lower s).currentMediaIndex = (((i + 1) % s.mediaFiles.length : Nat) : Int) ∧
      (playNext lower s).currentPlayer = some (surfaceOf lower f.path) ∧
      ((playNext lower s).player (surfaceOf lower f.path)).src = f.path ∧
      (playNext lower s).playlist.map itemData = s.playlist.map itemData := by
  have hpos : 0 < s.mediaFiles.length := by omega
  have hk : (i + 1) % s.mediaFiles.length < s.mediaFiles.length := Nat.mod_lt _ hpos
  obtain ⟨f, hf⟩ : ∃ f, s.mediaFiles.get? ((i + 1) % s.mediaFiles.length) = some f :=
    ⟨_, List.get?_eq_get hk⟩
  have hsup : Supported lower f.path := hs f (List.get?_mem hf)
  refine ⟨f, hf, ?_⟩
  have hne : ¬ s.mediaFiles.length = 0 := by omega
  have hget : arrayGet s.mediaFiles (Int.tmod (s.currentMediaIndex + 1) s.mediaFiles.length)
      = some f := by
    rw [hi, tmod_succ_natCast, arrayGet_natCast, hf]
  simp only [playNext, hne, if_false, hget]
  rw [hi, tmod_succ_natCast]
  exact loadMediaFile_entry lower s _ f _ hd hf hsup

/-- The function `playPrevious` on a playlist with distinct supported paths
and a cursor inside it. -/
theorem playPrevious_entry (lower : String → String) (s : State) (i : Nat)
    (hd : PathsDistinct s.mediaFiles) (hs : AllSupported lower s.mediaFiles)
    (hi : s.currentMediaIndex = (i : Int)) (hlt : i < s.mediaFiles.length) :
    ∃ f, s.mediaFiles.get? (if i = 0 then s.mediaFiles.length - 1 else i - 1) = some f ∧
      (playPrevious lower s).mediaFiles = s.mediaFiles ∧
      (playPrevious lower s).currentMediaIndex =
        ((if i = 0 then s.mediaFiles.length - 1 else i - 1 : Nat) : Int) ∧
      (playPrevious lower s).currentPlayer = some (surfaceOf lower f.path) ∧
      ((playPrevious lower s).player (surfaceOf lower f.path)).src = f.path ∧
      (playPrevious lower s).playlist.map itemData = s.playlist.map itemData := by
  have hk : (if i = 0 then s.mediaFiles.length - 1 else i - 1) < s.mediaFiles.length := by
    split <;> omega
  obtain ⟨f, hf⟩ :
      ∃ f, s.mediaFiles.get? (if i = 0 then s.mediaFiles.length - 1 else i - 1) = some f :=
    ⟨_, List.get?_eq_get hk⟩
  have hsup : Supported lower f.path := hs f (List.get?_mem hf)
  refine ⟨f, hf, ?_⟩
  have hne : ¬ s.mediaFiles.length = 0 := by omega
  have hidx : (if s.currentMediaIndex ≤ 0 then (s.mediaFiles.length : Int) - 1
      else s.currentMediaIndex - 1) =
      ((if i = 0 then s.mediaFiles.length - 1 else i - 1 : Nat) : Int) := by
    rw [hi]
    by_cases h0 : i = 0
    · subst h0
      simp only [Nat.cast_zero, le_refl, if_true]
      omega
    · have : ¬ ((i : Int) ≤ 0) := by omega
      simp only [this, h0, if_false]
      omega
  have hget : arrayGet s.mediaFiles
      (if s.currentMediaIndex ≤ 0 then (s.mediaFiles.length : Int) - 1
        else s.currentMediaIndex - 1) = some f := by
    rw [hidx, arrayGet_natCast, hf]
  simp only [playPrevious, hne, if_false, hget]
  rw [hidx]
  exact loadMediaFile_entry lower s _ f _ hd hf hsup

/-! ## C3 -/

/-- C3. On a non-empty playlist whose entries have pairwise distinct,
supported paths, from every cursor `0 ≤ i < length`, `playNext` followed by
`playPrevious` leaves the playlist as it was and brings the cursor back to
`i`, and so does `playPrevious` followed by `playNext`; the boundaries
`i = 0` and `i = length - 1` are included (a playlist with such a cursor is
not empty). -/
theorem playNext_playPrevious_inverse (lower : String → String) (s : State)
    (hd : PathsDistinct s.mediaFiles)
    (hs : AllSupported lower s.mediaFiles)
    (h0 : 0 ≤ s.currentMediaIndex) (h1 : s.currentMediaIndex < s.mediaFiles.length) :
    (playPrevious lower (playNext lower s)).mediaFiles = s.mediaFiles ∧
    (playPrevious lower (playNext lower s)).currentMediaIndex = s.currentMediaIndex ∧
    (playNext lower (playPrevious lower s)).mediaFiles = s.mediaFiles ∧
    (playNext lower (playPrevious lower s)).currentMediaIndex = s.currentMediaIndex := by
  obtain ⟨i, hi⟩ := Int.eq_ofNat_of_zero_le h0
  have hlt : i < s.mediaFiles.length := by omega
  obtain ⟨f, hf, n1, n2, -, -, -⟩ := playNext_entry lower s i hd hs hi hlt
  obtain ⟨g, hg, p1, p2, -, -, -⟩ := playPrevious_entry lower s i hd hs hi hlt
  have hmod : (i + 1) % s.mediaFiles.length < s.mediaFiles.length := Nat.mod_lt _ (by omega)
  have hprev : (if i = 0 then s.mediaFiles.length - 1 else i - 1) < s.mediaFiles.length := by
    split <;> omega
  obtain ⟨f2, -, q1, q2, -, -, -⟩ :=
    playPrevious_entry lower (playNext lower s) ((i + 1) % s.mediaFiles.length)
      (by rw [n1]; exact hd) (by rw [n1]; exact hs) n2 (by rw [n1]; exact hmod)
  obtain ⟨g2, -, r1, r2, -, -, -⟩ :=
    playNext_entry lower (playPrevious lower s) (if i = 0 then s.mediaFiles.length - 1 else i - 1)
      (by rw [p1]; exact hd) (by rw [p1]; exact hs) p2 (by rw [p1]; exact hprev)
  refine ⟨by rw [q1, n1], ?_, by rw [r1, p1], ?_⟩
  · rw [q2, n1, hi]
    congr 1
    by_cases hlast : i + 1 = s.mediaFiles.length
    · rw [hlast, Nat.mod_self]
      simp only [if_true]
      omega
    · rw [Nat.mod_eq_of_lt (by omega)]
      simp
  · rw [r2, p1, hi]
    congr 1
    by_cases hz : i = 0
    · subst hz
      simp only [if_true]
      rw [Nat.sub_add_cancel (by omega), Nat.mod_self]
    · simp only [hz, if_false]
      rw [Nat.sub_add_cancel (by omega), Nat.mod_eq_of_lt hlt]

theorem playNext_playPrevious_inverse_witness :
    (playPrevious asciiLower (playNext asciiLower
      { startupState with mediaFiles := samplePlaylist, currentMediaIndex := 2 })).currentMediaIndex
      = 2 :=
  (playNext_playPrevious_inverse asciiLower
    { startupState with mediaFiles := samplePlaylist, currentMediaIndex := 2 }
    (by decide) (by decide) (by decide) (by decide)).2.1

/-! ## `loadMediaFolder` -/

/-- A folder load that resolves with a non-empty list of distinct supported
entries installs the list, renders it, and loads its first entry. -/
theorem loadMediaFolder_entries (lower : String → String) (s : State) (first : MediaFile)
    (rest : List MediaFile) (hf : FolderEntries lower (first :: rest)) :
    (loadMediaFolder lower (Except.ok (first :: rest)) s).mediaFiles = first :: rest ∧
    (loadMediaFolder lower (Except.ok (first :: rest)) s).currentMediaIndex = 0 ∧
    (loadMediaFolder lower (Except.ok (first :: rest)) s).currentPlayer =
      some (surfaceOf lower first.path) ∧
    ((loadMediaFolder lower (Except.ok (first :: rest)) s).player
      (surfaceOf lower first.path)).src = first.path ∧
    (loadMediaFolder lower (Except.ok (first :: rest)) s).playlist.map itemData =
      (renderItems 0 (first :: rest) 0).map itemData := by
  have key := loadMediaFile_entry lower
    (updatePlaylist { s with mediaFiles := first :: rest, currentMediaIndex := -1 }) 0 first 0
    hf.1 rfl (hf.2 first (List.mem_cons_self _ _))
  obtain ⟨k1, k2, k3, k4, k5⟩ := key
  refine ⟨k1, k2, k3, k4, ?_⟩
  have : (loadMediaFolder lower (Except.ok (first :: rest)) s).playlist.map itemData =
      (renderItems (-1) (first :: rest) 0).map itemData := k5
  rw [this]
  exact renderItems_itemData _ _ _ _

theorem loadMediaFolder_empty (lower : String → String) (s : State) :
    loadMediaFolder lower (Except.ok []) s =
      { s with mediaFiles := [], currentMediaIndex := -1, playlist := [] } := by
  simp [loadMediaFolder, updatePlaylist, renderItems]

theorem loadMediaFolder_rejected (lower : String → String) (s : State) (message : String) :
    loadMediaFolder lower (Except.error message) s =
      { s with
        consoleErrors := s.consoleErrors ++ ["Error loading folder: " ++ message]
        alerts := s.alerts ++ ["Error loading folder: " ++ message] } := rfl

/-! ## C4 -/

/-- C4. For every prior state and every non-empty entry list with pairwise
distinct supported paths, `loadMediaFolder` makes the playlist equal to the
list and sets the cursor to 0, and after `k` further calls of `playNext`
(`k = 0` included) the playlist is still the list, the cursor is
`k mod n`, the active player is the surface matching the extension of entry
`k mod n`, and its source is the path of that entry. -/
theorem loadMediaFolder_then_playNext (lower : String → String) (s : State)
    (entries : List MediaFile) (hne : entries ≠ []) (hf : FolderEntries lower entries)
    (k : Nat) :
    (loadMediaFolder lower (Except.ok entries) s).mediaFiles = entries ∧
    (loadMediaFolder lower (Except.ok entries) s).currentMediaIndex = 0 ∧
    ∃ f, entries.get? (k % entries.length) = some f ∧
      (playNextTimes lower k (loadMediaFolder lower (Except.ok entries) s)).mediaFiles
        = entries ∧
      (playNextTimes lower k (loadMediaFolder lower (Except.ok entries) s)).currentMediaIndex
        = ((k % entries.length : Nat) : Int) ∧
      (playNextTimes lower k (loadMediaFolder lower (Except.ok entries) s)).currentPlayer
        = some (surfaceOf lower f.path) ∧
      ((playNextTimes lower k (loadMediaFolder lower (Except.ok entries) s)).player
        (surfaceOf lower f.path)).src = f.path := by
  obtain ⟨first, rest, rfl⟩ := List.exists_cons_of_ne_nil hne
  obtain ⟨l1, l2, l3, l4, -⟩ := loadMediaFolder_entries lower s first rest hf
  refine ⟨l1, l2, ?_⟩
  induction k with
  | zero =>
    refine ⟨first, by simp, l1, ?_, l3, l4⟩
    simp [playNextTimes, l2]
  | succ k ih =>
    obtain ⟨f, hf1, h1, h2, -, -⟩ := ih
    have hlt : k % (first :: rest).length < (first :: rest).length :=
      Nat.mod_lt _ (by simp)
    obtain ⟨g, hg, n1, n2, n3, n4, -⟩ :=
      playNext_entry lower (playNextTimes lower k (loadMediaFolder lower (Except.ok (first :: rest)) s))
        (k % (first :: rest).length) (by rw [h1]; exact hf.1) (by rw [h1]; exact hf.2) h2
        (by rw [h1]; exact hlt)
    rw [h1] at hg n1 n2
    have hmod : (k % (first :: rest).length + 1) % (first :: rest).length
        = (k + 1) % (first :: rest).length := by
      exact Nat.mod_add_mod k _ 1
    rw [hmod] at hg n2
    exact ⟨g, hg, n1, n2, n3, n4⟩

theorem loadMediaFolder_then_playNext_witness :
    sampleFolder ≠ [] ∧ FolderEntries asciiLower sampleFolder ∧
    ((loadMediaFolder asciiLower (Except.ok sampleFolder) startupState).currentMediaIndex = 0 ∧
      (loadMediaFolder asciiLower (Except.ok sampleFolder) startupState).currentPlayer
        = some PlayerRef.videoPlayer ∧
      (loadMediaFolder asciiLower (Except.ok sampleFolder) startupState).videoPlayer.src
        = "d/a.mp4") ∧
    ((playNextTimes asciiLower 1
        (loadMediaFolder asciiLower (Except.ok sampleFolder) startupState)).currentMediaIndex = 1 ∧
      (playNextTimes asciiLower 1
        (loadMediaFolder asciiLower (Except.ok sampleFolder) startupState)).currentPlayer
        = some PlayerRef.audioPlayer ∧
      (playNextTimes asciiLower 1
        (loadMediaFolder asciiLower (Except.ok sampleFolder) startupState)).audioPlayer.src
        = "d/b.mp3") ∧
    ((playNextTimes asciiLower 2
        (loadMediaFolder asciiLower (Except.ok sampleFolder) startupState)).currentMediaIndex = 0 ∧
      (playNextTimes asciiLower 2
        (loadMediaFolder asciiLower (Except.ok sampleFolder) startupState)).currentPlayer
        = some PlayerRef.videoPlayer ∧
      (playNextTimes asciiLower 2
        (loadMediaFolder asciiLower (Except.ok sampleFolder) startupState)).videoPlayer.src
        = "d/a.mp4") :=
  ⟨by decide, by decide,
   ⟨(loadMediaFolder_then_playNext asciiLower startupState sampleFolder
      (by decide) (by decide) 0).2.1, by decide, by decide⟩,
   ⟨by decide, by decide, by decide⟩, ⟨by decide, by decide, by decide⟩⟩

/-! ## Distinct paths are preserved -/

theorem loadMediaFile_mediaFiles_cases (lower : String → String) (p : String) (s : State) :
    (loadMediaFile lower p s).mediaFiles = s.mediaFiles ∨
    (p ∉ s.mediaFiles.map MediaFile.path ∧
      (loadMediaFile lower p s).mediaFiles = s.mediaFiles ++ [entryOf lower p]) := by
  by_cases hs : Supported lower p
  · by_cases hm : p ∈ s.mediaFiles.map MediaFile.path
    · exact Or.inl (loadMediaFile_present lower p s hs hm).1
    · exact Or.inr ⟨hm, (loadMediaFile_absent lower p s hs hm).1⟩
  · left
    rw [loadMediaFile_unsupported lower p s hs]

theorem pathsDistinct_append (l : List MediaFile) (e : MediaFile)
    (hd : PathsDistinct l) (hm : e.path ∉ l.map MediaFile.path) :
    PathsDistinct (l ++ [e]) := by
  unfold PathsDistinct at hd ⊢
  rw [List.map_append, List.map_singleton]
  exact List.Nodup.append hd (List.nodup_singleton _) (by simpa using hm)

/-- Whatever the path and the cursor, `loadMediaFile` keeps the paths of
the playlist distinct. -/
theorem loadMediaFile_distinct (lower : String → String) (p : String) (s t : State)
    (hst : t.mediaFiles = s.mediaFiles) (hd : PathsDistinct s.mediaFiles) :
    PathsDistinct (loadMediaFile lower p t).mediaFiles := by
  rcases loadMediaFile_mediaFiles_cases lower p t with h | ⟨hm, h⟩
  · rw [h, hst]; exact hd
  · rw [h, hst]
    rw [hst] at hm
    exact pathsDistinct_append _ _ hd hm

theorem loadMediaFolder_distinct (lower : String → String) (entries : List MediaFile)
    (s : State) (he : PathsDistinct entries) :
    PathsDistinct (loadMediaFolder lower (Except.ok entries) s).mediaFiles := by
  cases entries with
  | nil => rw [loadMediaFolder_empty]; exact he
  | cons first rest =>
    exact loadMediaFile_distinct lower first.path
      { s with mediaFiles := first :: rest } _ rfl he

theorem playNext_distinct (lower : String → String) (s : State)
    (hd : PathsDistinct s.mediaFiles) : PathsDistinct (playNext lower s).mediaFiles := by
  unfold playNext
  split
  · exact hd
  · dsimp only
    split
    · exact hd
    · exact loadMediaFile_distinct lower _ s _ rfl hd

theorem playPrevious_distinct (lower : String → String) (s : State)
    (hd : PathsDistinct s.mediaFiles) : PathsDistinct (playPrevious lower s).mediaFiles := by
  unfold playPrevious
  split
  · exact hd
  · dsimp only
    split
    · exact hd
    · exact loadMediaFile_distinct lower _ s _ rfl hd

theorem clickPlaylistItem_distinct (lower : String → String) (k : Nat) (s : State)
    (hd : PathsDistinct s.mediaFiles) :
    PathsDistinct (clickPlaylistItem lower k s).mediaFiles := by
  unfold clickPlaylistItem
  split
  · exact hd
  · exact loadMediaFile_distinct lower _ s _ rfl hd

/-- In every reachable state the paths of the playlist are pairwise
distinct, as soon as the folder lists have distinct paths. -/
theorem reachable_distinct (lower : String → String) (ok : List MediaFile → Prop)
    (hok : ∀ l, ok l → PathsDistinct l) (s : State) (hr : Reachable lower ok s) :
    PathsDistinct s.mediaFiles := by
  induction hr with
  | startup s h =>
    rw [h.2.2.1]
    exact List.nodup_nil
  | file s p _ ih => exact loadMediaFile_distinct lower p s s rfl ih
  | folder s entries _ he _ => exact loadMediaFolder_distinct lower entries s (hok entries he)
  | folderRejected s message _ ih => exact ih
  | next s _ ih => exact playNext_distinct lower s ih
  | previous s _ ih => exact playPrevious_distinct lower s ih
  | click s k _ ih => exact clickPlaylistItem_distinct lower k s ih
  | other s t _ hst ih => rw [hst.1]; exact ih

/-! ## C2 -/

/-- After a supported path has been loaded into a playlist with distinct
paths, the cursor is the position of an entry with that path. -/
theorem loadMediaFile_points (lower : String → String) (p : String) (s : State)
    (hd : PathsDistinct s.mediaFiles) (hp : Supported lower p) :
    ∃ (k : Nat) (f : MediaFile), (loadMediaFile lower p s).mediaFiles.get? k = some f ∧
      f.path = p ∧ (loadMediaFile lower p s).currentMediaIndex = (k : Int) := by
  by_cases hm : p ∈ s.mediaFiles.map MediaFile.path
  · obtain ⟨h1, h2, -⟩ := loadMediaFile_present lower p s hp hm
    obtain ⟨f, hf, rfl⟩ := List.mem_map.mp hm
    obtain ⟨k, hk⟩ := List.mem_iff_get?.mp hf
    refine ⟨k, f, by rw [h1]; exact hk, rfl, ?_⟩
    rw [h2, findIndex_of_get s.mediaFiles k f hd hk]
  · obtain ⟨h1, h2, -⟩ := loadMediaFile_absent lower p s hp hm
    refine ⟨s.mediaFiles.length, entryOf lower p, ?_, rfl, h2⟩
    rw [h1]
    simp

/-- C2. In every state reachable from startup (folder loads resolving with
entry lists of pairwise distinct paths) and for every path `p` with a
supported extension, loading `p` a second time gives the same playlist and
the same cursor as loading it once; after the first load the playlist has
exactly one entry whose path is `p`, and the cursor is the position of that
entry. -/
theorem loadMediaFile_twice (lower : String → String) (s : State) (p : String)
    (hr : Reachable lower PathsDistinct s) (hp : Supported lower p) :
    (loadMediaFile lower p (loadMediaFile lower p s)).mediaFiles
      = (loadMediaFile lower p s).mediaFiles ∧
    (loadMediaFile lower p (loadMediaFile lower p s)).currentMediaIndex
      = (loadMediaFile lower p s).currentMediaIndex ∧
    ((loadMediaFile lower p s).mediaFiles.map MediaFile.path).count p = 1 ∧
    ∃ f, arrayGet (loadMediaFile lower p s).mediaFiles
        (loadMediaFile lower p s).currentMediaIndex = some f ∧ f.path = p := by
  have hd : PathsDistinct s.mediaFiles := reachable_distinct lower PathsDistinct (fun _ h => h) s hr
  have hd1 : PathsDistinct (loadMediaFile lower p s).mediaFiles :=
    loadMediaFile_distinct lower p s s rfl hd
  obtain ⟨k, f, hk, rfl, hi⟩ := loadMediaFile_points lower p s hd hp
  have hm1 : f.path ∈ (loadMediaFile lower f.path s).mediaFiles.map MediaFile.path :=
    mem_paths_of_get _ k f hk
  obtain ⟨h1, h2, -⟩ := loadMediaFile_present lower f.path (loadMediaFile lower f.path s) hp hm1
  refine ⟨h1, ?_, List.count_eq_one_of_mem hd1 hm1, f, ?_, rfl⟩
  · rw [h2, hi]
    exact findIndex_of_get _ k f hd1 hk
  · rw [hi, arrayGet_natCast, hk]

theorem loadMediaFile_twice_witness :
    Supported asciiLower "d/song.MP3" ∧
    (loadMediaFile asciiLower "d/song.MP3"
      (loadMediaFile asciiLower "d/song.MP3" startupState)).mediaFiles
      = (loadMediaFile asciiLower "d/song.MP3" startupState).mediaFiles :=
  ⟨by decide,
   (loadMediaFile_twice asciiLower startupState "d/song.MP3"
    (Reachable.startup startupState (by decide)) (by decide)).1⟩

/-! ## The cursor stays consistent -/

theorem get?_map_eq {α β : Type} (g : α → β) (l : List α) (k : Nat) :
    (l.map g).get? k = (l.get? k).map g := by
  simp

theorem consistent_of_entry (lower : String → String) (s t : State) (k : Nat) (f : MediaFile)
    (hc : Consistent lower s) (h1 : t.mediaFiles = s.mediaFiles)
    (hk : s.mediaFiles.get? k = some f) (h2 : t.currentMediaIndex = (k : Int))
    (h3 : t.currentPlayer = some (surfaceOf lower f.path))
    (h4 : (t.player (surfaceOf lower f.path)).src = f.path)
    (h5 : t.playlist.map itemData = s.playlist.map itemData) : Consistent lower t := by
  obtain ⟨hd, hs, hr, -⟩ := hc
  refine ⟨by rw [h1]; exact hd, by rw [h1]; exact hs, ?_, Or.inr ⟨k, f, h2, by rw [h1]; exact hk, h3, h4⟩⟩
  unfold Rendered at hr ⊢
  rw [h5, h1, hr]

theorem consistent_startup (lower : String → String) (s : State) (h : IsStartup s) :
    Consistent lower s := by
  obtain ⟨-, h2, h3, -, h5, -⟩ := h
  refine ⟨?_, ?_, ?_, Or.inl ⟨h2, h3⟩⟩
  · rw [h3]; exact List.nodup_nil
  · rw [h3]; intro f hf; simp at hf
  · unfold Rendered; rw [h3, h5]; simp [renderItems]

theorem consistent_loadMediaFile (lower : String → String) (p : String) (s : State)
    (hc : Consistent lower s) : Consistent lower (loadMediaFile lower p s) := by
  by_cases hp : Supported lower p
  · obtain ⟨c1, c2⟩ := loadMediaFile_currentPlayer lower p s hp
    by_cases hm : p ∈ s.mediaFiles.map MediaFile.path
    · obtain ⟨h1, h2, h3⟩ := loadMediaFile_present lower p s hp hm
      obtain ⟨f, hf, rfl⟩ := List.mem_map.mp hm
      obtain ⟨k, hk⟩ := List.mem_iff_get?.mp hf
      rw [findIndex_of_get s.mediaFiles k f hc.1 hk] at h2
      exact consistent_of_entry lower s _ k f hc h1 hk h2 c1 c2 h3
    · obtain ⟨h1, h2, h3⟩ := loadMediaFile_absent lower p s hp hm
      refine ⟨?_, ?_, ?_, Or.inr ⟨s.mediaFiles.length, entryOf lower p, h2, ?_, c1, c2⟩⟩
      · rw [h1]; exact pathsDistinct_append _ _ hc.1 hm
      · rw [h1]
        intro f hf
        rcases List.mem_append.mp hf with hf | hf
        · exact hc.2.1 f hf
        · rw [List.mem_singleton] at hf
          rw [hf]
          exact hp
      · unfold Rendered
        rw [h3, h1]
      · rw [h1]; simp
  · rw [loadMediaFile_unsupported lower p s hp]
    exact hc

theorem consistent_loadMediaFolder (lower : String → String) (entries : List MediaFile)
    (s : State) (he : FolderEntries lower entries) :
    Consistent lower (loadMediaFolder lower (Except.ok entries) s) := by
  cases entries with
  | nil =>
    rw [loadMediaFolder_empty]
    refine ⟨List.nodup_nil, ?_, ?_, Or.inl ⟨rfl, rfl⟩⟩
    · intro f hf; simp at hf
    · unfold Rendered; simp [renderItems]
  | cons first rest =>
    obtain ⟨h1, h2, h3, h4, h5⟩ := loadMediaFolder_entries lower s first rest he
    refine ⟨by rw [h1]; exact he.1, by rw [h1]; exact he.2, ?_,
      Or.inr ⟨0, first, by rw [h2]; rfl, by rw [h1]; rfl, h3, h4⟩⟩
    unfold Rendered
    rw [h5, h1]

theorem consistent_playNext (lower : String → String) (s : State)
    (hc : Consistent lower s) : Consistent lower (playNext lower s) := by
  rcases hc.2.2.2 with ⟨-, hnil⟩ | ⟨i, f, hi, hf, -, -⟩
  · have : playNext lower s = s := by simp [playNext, hnil]
    rw [this]; exact hc
  · have hlt : i < s.mediaFiles.length := by
      rcases Nat.lt_or_ge i s.mediaFiles.length with h | h
      · exact h
      · rw [List.get?_eq_none.mpr h] at hf; cases hf
    obtain ⟨g, hg, n1, n2, n3, n4, n5⟩ := playNext_entry lower s i hc.1 hc.2.1 hi hlt
    exact consistent_of_entry lower s _ _ g hc n1 hg n2 n3 n4 n5

theorem consistent_playPrevious (lower : String → String) (s : State)
    (hc : Consistent lower s) : Consistent lower (playPrevious lower s) := by
  rcases hc.2.2.2 with ⟨-, hnil⟩ | ⟨i, f, hi, hf, -, -⟩
  · have : playPrevious lower s = s := by simp [playPrevious, hnil]
    rw [this]; exact hc
  · have hlt : i < s.mediaFiles.length := by
      rcases Nat.lt_or_ge i s.mediaFiles.length with h | h
      · exact h
      · rw [List.get?_eq_none.mpr h] at hf; cases hf
    obtain ⟨g, hg, n1, n2, n3, n4, n5⟩ := playPrevious_entry lower s i hc.1 hc.2.1 hi hlt
    exact consistent_of_entry lower s _ _ g hc n1 hg n2 n3 n4 n5

theorem consistent_clickPlaylistItem (lower : String → String) (k : Nat) (s : State)
    (hc : Consistent lower s) : Consistent lower (clickPlaylistItem lower k s) := by
  unfold clickPlaylistItem
  split
  · exact hc
  · rename_i item hitem
    have hr : (s.playlist.map itemData).get? k = some (itemData item) := by
      rw [get?_map_eq, hitem]; rfl
    rw [hc.2.2.1, get?_map_eq, renderItems_get] at hr
    cases hk : s.mediaFiles.get? k with
    | none => rw [hk] at hr; simp at hr
    | some f =>
      rw [hk] at hr
      simp only [Option.map_some', itemData, Option.some.injEq, Prod.mk.injEq, zero_add] at hr
      obtain ⟨hfile, hindex⟩ := hr
      rw [← hfile, ← hindex]
      obtain ⟨e1, e2, e3, e4, e5⟩ :=
        loadMediaFile_entry lower s k f (k : Int) hc.1 hk (hc.2.1 f (List.get?_mem hk))
      exact consistent_of_entry lower s _ k f hc e1 hk e2 e3 e4 e5

theorem consistent_other (lower : String → String) (s t : State)
    (hc : Consistent lower s) (hst : SameSelection s t) : Consistent lower t := by
  obtain ⟨h1, h2, h3, h4, h5, h6⟩ := hst
  obtain ⟨hd, hs, hr, hcur⟩ := hc
  refine ⟨by rw [h1]; exact hd, by rw [h1]; exact hs, ?_, ?_⟩
  · unfold Rendered at hr ⊢; rw [h4, h1]; exact hr
  · rcases hcur with ⟨a, b⟩ | ⟨k, f, a, b, c, d⟩
    · exact Or.inl ⟨by rw [h2]; exact a, by rw [h1]; exact b⟩
    · refine Or.inr ⟨k, f, by rw [h2]; exact a, by rw [h1]; exact b, by rw [h3]; exact c, ?_⟩
      have hsrc : ∀ r, (t.player r).src = (s.player r).src := by
        intro r
        cases r
        · exact h5
        · exact h6
      rw [hsrc]
      exact d

/-- Every reachable state is consistent. -/
theorem reachable_consistent (lower : String → String) (s : State)
    (hr : Reachable lower (FolderEntries lower) s) : Consistent lower s := by
  induction hr with
  | startup s h => exact consistent_startup lower s h
  | file s p _ ih => exact consistent_loadMediaFile lower p s ih
  | folder s entries _ he _ => exact consistent_loadMediaFolder lower entries s he
  | folderRejected s message _ ih => exact ih
  | next s _ ih => exact consistent_playNext lower s ih
  | previous s _ ih => exact consistent_playPrevious lower s ih
  | click s k _ ih => exact consistent_clickPlaylistItem lower k s ih
  | other s t _ hst ih => exact consistent_other lower s t ih hst

/-! ## The other handlers leave the selection alone -/

theorem sameSelection_setPlayer (s : State) (r : PlayerRef) (e : MediaElement)
    (h : e.src = (s.player r).src) : SameSelection s (s.setPlayer r e) := by
  cases r <;> simp [SameSelection, State.setPlayer, State.player] at h ⊢ <;> exact h

theorem sameSelection_refl (s : State) : SameSelection s s :=
  ⟨rfl, rfl, rfl, rfl, rfl, rfl⟩

theorem sameSelection_togglePlayPause (s : State) : SameSelection s (togglePlayPause s) := by
  unfold togglePlayPause
  split
  · exact sameSelection_refl s
  · split <;> exact sameSelection_setPlayer s _ _ rfl

theorem sameSelection_stopPlayback (s : State) : SameSelection s (stopPlayback s) := by
  unfold stopPlayback
  split
  · exact sameSelection_refl s
  · exact sameSelection_setPlayer s _ _ rfl

theorem sameSelection_seek (seconds : ℚ) (s : State) : SameSelection s (seek seconds s) := by
  unfold seek
  split
  · exact sameSelection_refl s
  · exact sameSelection_setPlayer s _ _ rfl

theorem sameSelection_updateVolume (s : State) : SameSelection s (updateVolume s) := by
  unfold updateVolume
  split
  · exact sameSelection_refl s
  · exact sameSelection_setPlayer s _ _ rfl

theorem sameSelection_updateProgress (s : State) : SameSelection s (updateProgress s) := by
  unfold updateProgress
  split
  · exact sameSelection_refl s
  · dsimp only
    split <;> exact sameSelection_refl _

theorem sameSelection_updatePlayState (playing : Bool) (s : State) :
    SameSelection s (updatePlayState playing s) :=
  ⟨rfl, rfl, rfl, rfl, rfl, rfl⟩

/-- Handling a relayed command leads from a reachable state to a reachable
state. -/
theorem reachable_handlePlayerCommand (lower : String → String) (ok : List MediaFile → Prop)
    (command : String) (s : State) (hr : Reachable lower ok s) :
    Reachable lower ok (handlePlayerCommand lower command s) := by
  unfold handlePlayerCommand
  split
  · exact Reachable.other s _ hr (sameSelection_togglePlayPause s)
  split
  · exact Reachable.next s hr
  split
  · exact Reachable.previous s hr
  split
  · exact Reachable.other s _ hr (sameSelection_seek 10 s)
  split
  · exact Reachable.other s _ hr (sameSelection_seek (-10) s)
  split
  · exact Reachable.other _ _ (Reachable.other s _ hr ⟨rfl, rfl, rfl, rfl, rfl, rfl⟩)
      (sameSelection_updateVolume _)
  split
  · exact Reachable.other _ _ (Reachable.other s _ hr ⟨rfl, rfl, rfl, rfl, rfl, rfl⟩)
      (sameSelection_updateVolume _)
  · exact hr

/-! ## C8 -/

/-- C8, counterexample. Load `d/a.mp4` from startup, then load a folder
whose scan answers with the empty list (an empty folder, or a failed read):
the state is reachable, the cursor is `-1`, and the video surface is still
the active player, still holding `d/a.mp4`. -/
theorem cursor_unset_while_file_loaded :
    Reachable asciiLower (FolderEntries asciiLower)
      (loadMediaFolder asciiLower (Except.ok [])
        (loadMediaFile asciiLower "d/a.mp4" startupState)) ∧
    (loadMediaFolder asciiLower (Except.ok [])
      (loadMediaFile asciiLower "d/a.mp4" startupState)).currentMediaIndex = -1 ∧
    (loadMediaFolder asciiLower (Except.ok [])
      (loadMediaFile asciiLower "d/a.mp4" startupState)).currentPlayer
      = some PlayerRef.videoPlayer ∧
    (loadMediaFolder asciiLower (Except.ok [])
      (loadMediaFile asciiLower "d/a.mp4" startupState)).videoPlayer.src = "d/a.mp4" ∧
    ¬ ((loadMediaFolder asciiLower (Except.ok [])
        (loadMediaFile asciiLower "d/a.mp4" startupState)).currentMediaIndex = -1 →
      (loadMediaFolder asciiLower (Except.ok [])
        (loadMediaFile asciiLower "d/a.mp4" startupState)).currentPlayer = none) :=
  ⟨Reachable.folder _ [] (Reachable.file startupState "d/a.mp4"
      (Reachable.startup startupState (by decide))) (by decide),
   by decide, by decide, by decide, by decide⟩

/-- C8, amended. In every state reachable from startup by file loads, folder
loads (with entry lists of pairwise distinct supported paths, or rejected),
`playNext`, `playPrevious` and clicks on playlist items, interleaved with
any steps that leave the selection alone: the cursor is `-1` or a position
of the playlist; when it is not `-1`, there is an active player and its
source is the path of the entry under the cursor; and the cursor is `-1`
exactly when the playlist is empty. Nothing is said of the surfaces when the
cursor is `-1`. -/
theorem cursor_consistent (lower : String → String) (s : State)
    (hr : Reachable lower (FolderEntries lower) s) :
    (s.currentMediaIndex = -1 ∨
      (0 ≤ s.currentMediaIndex ∧ s.currentMediaIndex < (s.mediaFiles.length : Int))) ∧
    (s.currentMediaIndex ≠ -1 →
      ∃ r f, s.currentPlayer = some r ∧
        arrayGet s.mediaFiles s.currentMediaIndex = some f ∧ (s.player r).src = f.path) ∧
    (s.currentMediaIndex = -1 ↔ s.mediaFiles = []) := by
  obtain ⟨-, -, -, hcur⟩ := reachable_consistent lower s hr
  rcases hcur with ⟨h1, h2⟩ | ⟨k, f, h1, h2, h3, h4⟩
  · exact ⟨Or.inl h1, fun hne => absurd h1 hne, fun _ => h2, fun _ => h1⟩
  · have hlt : k < s.mediaFiles.length := by
      rcases Nat.lt_or_ge k s.mediaFiles.length with h | h
      · exact h
      · rw [List.get?_eq_none.mpr h] at h2; cases h2
    refine ⟨Or.inr ⟨by omega, by omega⟩, fun _ => ⟨_, f, h3, ?_, h4⟩, fun hneg => ?_,
      fun hnil => ?_⟩
    · rw [h1, arrayGet_natCast, h2]
    · omega
    · rw [hnil] at hlt
      simp at hlt

theorem cursor_consistent_witness :
    (playNext asciiLower
      (loadMediaFolder asciiLower (Except.ok sampleFolder) startupState)).currentMediaIndex = 1 ∧
    ∃ r f,
      (playNext asciiLower
        (loadMediaFolder asciiLower (Except.ok sampleFolder) startupState)).currentPlayer
        = some r ∧
      arrayGet
        (playNext asciiLower
          (loadMediaFolder asciiLower (Except.ok sampleFolder) startupState)).mediaFiles
        (playNext asciiLower
          (loadMediaFolder asciiLower (Except.ok sampleFolder) startupState)).currentMediaIndex
        = some f ∧
      ((playNext asciiLower
        (loadMediaFolder asciiLower (Except.ok sampleFolder) startupState)).player r).src
        = f.path :=
  ⟨by decide,
   (cursor_consistent asciiLower _
    (Reachable.next _
      (Reachable.folder startupState sampleFolder
        (Reachable.startup startupState (by decide)) (by decide)))).2.1 (by decide)⟩

/-! ## Volume -/

theorem sameVolume_loadMediaFile (lower : String → String) (p : String) (s : State) :
    SameVolume s (loadMediaFile lower p s) := by
  by_cases hv : fileExt lower p ∈ videoExtensions
  · by_cases hm : (s.mediaFiles.any (fun file => decide (file.path = p))) = true <;>
    simp [SameVolume, loadMediaFile, hv, hm, State.setPlayer, State.player, updatePlaylist,
      highlightCurrentPlaylistItem, MediaElement.load]
  · by_cases ha : fileExt lower p ∈ audioExtensions
    · by_cases hm : (s.mediaFiles.any (fun file => decide (file.path = p))) = true <;>
      simp [SameVolume, loadMediaFile, hv, ha, hm, State.setPlayer, State.player,
        updatePlaylist, highlightCurrentPlaylistItem, MediaElement.load]
    · simp [SameVolume, loadMediaFile, hv, ha]

theorem sameVolume_playNext (lower : String → String) (s : State) :
    SameVolume s (playNext lower s) := by
  unfold playNext
  split
  · exact ⟨rfl, rfl, rfl⟩
  · dsimp only
    split
    · exact ⟨rfl, rfl, rfl⟩
    · exact sameVolume_loadMediaFile lower _ _

theorem sameVolume_playPrevious (lower : String → String) (s : State) :
    SameVolume s (playPrevious lower s) := by
  unfold playPrevious
  split
  · exact ⟨rfl, rfl, rfl⟩
  · dsimp only
    split
    · exact ⟨rfl, rfl, rfl⟩
    · exact sameVolume_loadMediaFile lower _ _

theorem sameVolume_togglePlayPause (s : State) : SameVolume s (togglePlayPause s) := by
  unfold togglePlayPause
  split
  · exact ⟨rfl, rfl, rfl⟩
  · rename_i r _
    cases r <;> split <;> exact ⟨rfl, rfl, rfl⟩

theorem sameVolume_seek (seconds : ℚ) (s : State) : SameVolume s (seek seconds s) := by
  unfold seek
  split
  · exact ⟨rfl, rfl, rfl⟩
  · rename_i r _
    cases r <;> exact ⟨rfl, rfl, rfl⟩

theorem volumeInRange_of_sameVolume (s t : State) (h : VolumeInRange s) (hst : SameVolume s t) :
    VolumeInRange t := by
  obtain ⟨h1, h2, h3⟩ := hst
  unfold VolumeInRange
  rw [h1, h2, h3]
  exact h

theorem volumeInRange_updateVolume (s : State) (h : VolumeInRange s) :
    VolumeInRange (updateVolume s) := by
  obtain ⟨⟨h0, h1⟩, hv, ha⟩ := h
  have q0 : (0 : ℚ) ≤ (s.volumeSlider : ℚ) / 100 := by
    have : (0 : ℚ) ≤ (s.volumeSlider : ℚ) := by exact_mod_cast h0
    positivity
  have q1 : (s.volumeSlider : ℚ) / 100 ≤ 1 := by
    have : (s.volumeSlider : ℚ) ≤ 100 := by exact_mod_cast h1
    rw [div_le_one (by norm_num)]
    exact this
  unfold updateVolume
  split
  · exact ⟨⟨h0, h1⟩, hv, ha⟩
  · rename_i r _
    cases r
    · exact ⟨⟨h0, h1⟩, ⟨q0, q1⟩, ha⟩
    · exact ⟨⟨h0, h1⟩, hv, ⟨q0, q1⟩⟩

theorem volumeInRange_handlePlayerCommand (lower : String → String) (command : String)
    (s : State) (h : VolumeInRange s) :
    VolumeInRange (handlePlayerCommand lower command s) := by
  unfold handlePlayerCommand
  split
  · exact volumeInRange_of_sameVolume s _ h (sameVolume_togglePlayPause s)
  split
  · exact volumeInRange_of_sameVolume s _ h (sameVolume_playNext lower s)
  split
  · exact volumeInRange_of_sameVolume s _ h (sameVolume_playPrevious lower s)
  split
  · exact volumeInRange_of_sameVolume s _ h (sameVolume_seek 10 s)
  split
  · exact volumeInRange_of_sameVolume s _ h (sameVolume_seek (-10) s)
  split
  · apply volumeInRange_updateVolume
    obtain ⟨⟨h0, h1⟩, hv, ha⟩ := h
    exact ⟨⟨by simp only; omega, by simp only; omega⟩, hv, ha⟩
  split
  · apply volumeInRange_updateVolume
    obtain ⟨⟨h0, h1⟩, hv, ha⟩ := h
    exact ⟨⟨by simp only; omega, by simp only; omega⟩, hv, ha⟩
  · exact h

theorem volumeInRange_handlePlayerCommands (lower : String → String) (commands : List String)
    (s : State) (h : VolumeInRange s) :
    VolumeInRange (handlePlayerCommands lower commands s) := by
  unfold handlePlayerCommands
  induction commands generalizing s with
  | nil => exact h
  | cons c cs ih =>
    rw [List.foldl_cons]
    exact ih _ (volumeInRange_handlePlayerCommand lower c s h)

theorem updateVolume_volumeSlider (s : State) :
    (updateVolume s).volumeSlider = s.volumeSlider := by
  unfold updateVolume
  split
  · rfl
  · rename_i r _
    cases r <;> rfl

theorem handlePlayerCommand_volumeSlider_range (lower : String → String) (command : String)
    (s : State) (h0 : 0 ≤ s.volumeSlider) (h1 : s.volumeSlider ≤ 100) :
    0 ≤ (handlePlayerCommand lower command s).volumeSlider ∧
    (handlePlayerCommand lower command s).volumeSlider ≤ 100 := by
  unfold handlePlayerCommand
  split
  · rw [(sameVolume_togglePlayPause s).1]; exact ⟨h0, h1⟩
  split
  · rw [(sameVolume_playNext lower s).1]; exact ⟨h0, h1⟩
  split
  · rw [(sameVolume_playPrevious lower s).1]; exact ⟨h0, h1⟩
  split
  · rw [(sameVolume_seek 10 s).1]; exact ⟨h0, h1⟩
  split
  · rw [(sameVolume_seek (-10) s).1]; exact ⟨h0, h1⟩
  split
  · rw [updateVolume_volumeSlider]
    exact ⟨by simp only; omega, by simp only; omega⟩
  split
  · rw [updateVolume_volumeSlider]
    exact ⟨by simp only; omega, by simp only; omega⟩
  · exact ⟨h0, h1⟩

theorem handlePlayerCommands_volumeSlider_range (lower : String → String)
    (commands : List String) (s : State) (h0 : 0 ≤ s.volumeSlider) (h1 : s.volumeSlider ≤ 100) :
    0 ≤ (handlePlayerCommands lower commands s).volumeSlider ∧
    (handlePlayerCommands lower commands s).volumeSlider ≤ 100 := by
  unfold handlePlayerCommands
  induction commands generalizing s with
  | nil => exact ⟨h0, h1⟩
  | cons c cs ih =>
    rw [List.foldl_cons]
    obtain ⟨a, b⟩ := handlePlayerCommand_volumeSlider_range lower c s h0 h1
    exact ih _ a b

theorem updateVolume_player (s : State) (r : PlayerRef) (h : s.currentPlayer = some r) :
    ((updateVolume s).player r).volume = (s.volumeSlider : ℚ) / 100 := by
  unfold updateVolume
  rw [h]
  cases r <;> rfl

/-! ## C5 -/

/-- C5. For every integer slider value `v` with `0 ≤ v ≤ 100`, the command
`volume-up` sets the slider to `min(100, v + 10)` and `volume-down` sets it
to `max(0, v - 10)`, and each writes the new value divided by 100 to the
active player; after any sequence of commands (the nine of the relay or any
other string) the slider is still within `[0, 100]`, so the volume a command
applies, the slider value over 100, is within `[0, 1]`. -/
theorem volume_commands_clamped (lower : String → String) (s : State)
    (h0 : 0 ≤ s.volumeSlider) (h1 : s.volumeSlider ≤ 100) :
    (handlePlayerCommand lower "volume-up" s).volumeSlider = min 100 (s.volumeSlider + 10) ∧
    (handlePlayerCommand lower "volume-down" s).volumeSlider = max 0 (s.volumeSlider - 10) ∧
    (∀ r, s.currentPlayer = some r →
      ((handlePlayerCommand lower "volume-up" s).player r).volume
        = ((min 100 (s.volumeSlider + 10) : Int) : ℚ) / 100 ∧
      ((handlePlayerCommand lower "volume-down" s).player r).volume
        = ((max 0 (s.volumeSlider - 10) : Int) : ℚ) / 100) ∧
    ∀ commands : List String,
      (0 ≤ (handlePlayerCommands lower commands s).volumeSlider ∧
        (handlePlayerCommands lower commands s).volumeSlider ≤ 100) ∧
      (0 : ℚ) ≤ ((handlePlayerCommands lower commands s).volumeSlider : ℚ) / 100 ∧
      ((handlePlayerCommands lower commands s).volumeSlider : ℚ) / 100 ≤ 1 := by
  have hup : handlePlayerCommand lower "volume-up" s =
      updateVolume { s with volumeSlider := min 100 (s.volumeSlider + 10) } := by
    simp [handlePlayerCommand]
  have hdown : handlePlayerCommand lower "volume-down" s =
      updateVolume { s with volumeSlider := max 0 (s.volumeSlider - 10) } := by
    simp [handlePlayerCommand]
  refine ⟨?_, ?_, ?_, ?_⟩
  · rw [hup, updateVolume_volumeSlider]
  · rw [hdown, updateVolume_volumeSlider]
  · intro r hr
    rw [hup, hdown]
    exact ⟨updateVolume_player _ r hr, updateVolume_player _ r hr⟩
  · intro commands
    obtain ⟨a, b⟩ := handlePlayerCommands_volumeSlider_range lower commands s h0 h1
    refine ⟨⟨a, b⟩, ?_, ?_⟩
    · have : (0 : ℚ) ≤ ((handlePlayerCommands lower commands s).volumeSlider : ℚ) := by
        exact_mod_cast a
      positivity
    · have : ((handlePlayerCommands lower commands s).volumeSlider : ℚ) ≤ 100 := by
        exact_mod_cast b
      rw [div_le_one (by norm_num)]
      exact this

theorem volume_commands_clamped_witness :
    (0 : Int) ≤ startupState.volumeSlider ∧ startupState.volumeSlider ≤ 100 ∧
    (handlePlayerCommand asciiLower "volume-up" startupState).volumeSlider
      = min 100 (startupState.volumeSlider + 10) ∧
    (handlePlayerCommand asciiLower "volume-down"
      (handlePlayerCommand asciiLower "volume-down" startupState)).volumeSlider = 80 :=
  ⟨by decide, by decide,
   (volume_commands_clamped asciiLower startupState (by decide) (by decide)).1, by decide⟩

/-! ## `formatTime` -/

theorem padStart_two_digits (n : Nat) (h : n < 100) :
    padStart (natToString n) 2 '0' =
      String.mk [Nat.digitChar (n / 10), Nat.digitChar (n % 10)] := by
  interval_cases n <;> rfl

theorem toDigitsCore_length_ge (b f n : Nat) (l : List Char) :
    l.length ≤ (Nat.toDigitsCore b f n l).length := by
  induction f generalizing n l with
  | zero => simp [Nat.toDigitsCore]
  | succ f ih =>
    simp only [Nat.toDigitsCore]
    split
    · simp
    · exact le_trans (by simp) (ih _ _)

theorem toDigitsCore_succ_length_gt (b f n : Nat) (l : List Char) :
    l.length < (Nat.toDigitsCore b (f + 1) n l).length := by
  simp only [Nat.toDigitsCore]
  split
  · simp
  · exact lt_of_lt_of_le (by simp) (toDigitsCore_length_ge _ _ _ _)

theorem natToString_length_ge_three (n : Nat) (h : 100 ≤ n) :
    3 ≤ (natToString n).data.length := by
  obtain ⟨f, rfl⟩ : ∃ f, n = f + 2 := ⟨n - 2, by omega⟩
  have h1 : ¬ (f + 2) / 10 = 0 := by omega
  have h2 : ¬ (f + 2) / 10 / 10 = 0 := by omega
  have : Nat.toDigits 10 (f + 2) =
      Nat.toDigitsCore 10 (f + 1) ((f + 2) / 10 / 10)
        [Nat.digitChar ((f + 2) / 10 % 10), Nat.digitChar ((f + 2) % 10)] := by
    simp only [Nat.toDigits, Nat.toDigitsCore, h1, h2, if_false]
  unfold natToString
  rw [this]
  have hlen := toDigitsCore_succ_length_gt 10 f ((f + 2) / 10 / 10)
    [Nat.digitChar ((f + 2) / 10 % 10), Nat.digitChar ((f + 2) % 10)]
  simp only [List.length_cons, List.length_nil] at hlen
  dsimp only
  omega

/-- The value of `formatTime` on a finite, non-negative number: the decimal
digits of the whole minutes, padded to two, a colon, and the two digits of
the whole seconds that remain. -/
theorem formatTime_fin (q : ℚ) (h0 : 0 ≤ q) :
    formatTime (JSNumber.fin q) =
      padStart (natToString ⌊q / 60⌋.toNat) 2 '0' ++ ":" ++
        padStart (natToString (⌊q⌋ - 60 * ⌊q / 60⌋).toNat) 2 '0' := by
  have hq : (0 : ℚ) ≤ q / 60 := by positivity
  have hm : 0 ≤ ⌊q / 60⌋ := Int.floor_nonneg.mpr hq
  have hs : 0 ≤ ⌊q⌋ - 60 * ⌊q / 60⌋ := by
    have : ((60 * ⌊q / 60⌋ : Int) : ℚ) ≤ q := by
      push_cast
      have := Int.floor_le (q / 60)
      linarith
    have := Int.le_floor.mpr this
    omega
  have hfl : Rat.floor (q - 60 * ((Rat.floor (q / 60) : Int) : ℚ)) = ⌊q⌋ - 60 * ⌊q / 60⌋ := by
    show ⌊q - 60 * ((⌊q / 60⌋ : Int) : ℚ)⌋ = ⌊q⌋ - 60 * ⌊q / 60⌋
    have : q - 60 * ((⌊q / 60⌋ : Int) : ℚ) = q - ((60 * ⌊q / 60⌋ : Int) : ℚ) := by push_cast; ring
    rw [this, Int.floor_sub_int]
  have hfm : Rat.floor (q / 60) = ⌊q / 60⌋ := rfl
  obtain ⟨m, hm'⟩ := Int.eq_ofNat_of_zero_le hm
  obtain ⟨ss, hs'⟩ := Int.eq_ofNat_of_zero_le hs
  have h60 : ¬ ((60 : ℚ) = 0) := by norm_num
  simp only [formatTime, JSNumber.isNaN, JSNumber.div, JSNumber.rem, JSNumber.floor,
    JSNumber.truncate, h60, hq, if_true, if_false, Bool.false_eq_true]
  rw [hfl, hfm, hs', hm']
  rfl

/-! ## C6 -/

/-- C6, counterexample. One hundred minutes are written with three digits:
`formatTime(6000)` is `100:00`, six characters and not five. -/
theorem formatTime_hundred_minutes :
    formatTime (JSNumber.fin 6000) = "100:00" ∧
    ¬ (formatTime (JSNumber.fin 6000)).data.length = 5 := by
  have h1 : ⌊(6000 : ℚ) / 60⌋ = 100 := by norm_num
  have h2 : ⌊(6000 : ℚ)⌋ = 6000 := by
    have : (6000 : ℚ) = ((6000 : Int) : ℚ) := by norm_num
    rw [this, Int.floor_intCast]
  have h : formatTime (JSNumber.fin 6000) = "100:00" := by
    rw [formatTime_fin 6000 (by norm_num), h1, h2]
    decide
  rw [h]
  exact ⟨rfl, by decide⟩

/-- C6, amended. For every finite number of seconds `s` with
`0 ≤ s < 2^53`, `formatTime(s)` is the decimal writing of the whole minutes
`⌊s / 60⌋` (an integer below `2^53`), zero-padded to at least two digits, a
colon, and the two digits of the remaining whole seconds
`⌊s⌋ - 60 ⌊s / 60⌋`, which are less than 60. When `s < 6000` the minutes take
two digits and the string has exactly five characters `MM:SS`; when
`s ≥ 6000` it has more than five. And `formatTime(NaN)` is `00:00`. -/
theorem formatTime_shape (q : ℚ) (h0 : 0 ≤ q) (hb : q < 2 ^ 53) :
    (∃ m ss : Nat, (m : Int) = ⌊q / 60⌋ ∧ (ss : Int) = ⌊q⌋ - 60 * ⌊q / 60⌋ ∧ ss < 60 ∧
      m < 2 ^ 53 ∧
      formatTime (JSNumber.fin q) =
        padStart (natToString m) 2 '0' ++ ":" ++
          String.mk [Nat.digitChar (ss / 10), Nat.digitChar (ss % 10)] ∧
      (q < 6000 → m < 100 ∧
        formatTime (JSNumber.fin q) =
          String.mk [Nat.digitChar (m / 10), Nat.digitChar (m % 10), ':',
            Nat.digitChar (ss / 10), Nat.digitChar (ss % 10)])) ∧
    (q < 6000 → (formatTime (JSNumber.fin q)).data.length = 5) ∧
    (6000 ≤ q → 5 < (formatTime (JSNumber.fin q)).data.length) ∧
    formatTime JSNumber.nan = "00:00" := by
  have hq : (0 : ℚ) ≤ q / 60 := by positivity
  have hm : 0 ≤ ⌊q / 60⌋ := Int.floor_nonneg.mpr hq
  have hlow : ((60 * ⌊q / 60⌋ : Int) : ℚ) ≤ q := by
    push_cast
    have := Int.floor_le (q / 60)
    linarith
  have hhigh : q < ((60 * ⌊q / 60⌋ + 60 : Int) : ℚ) := by
    push_cast
    have := Int.lt_floor_add_one (q / 60)
    linarith
  have hs0 : 0 ≤ ⌊q⌋ - 60 * ⌊q / 60⌋ := by
    have := Int.le_floor.mpr hlow
    omega
  have hs1 : ⌊q⌋ - 60 * ⌊q / 60⌋ < 60 := by
    have := Int.floor_lt.mpr hhigh
    omega
  obtain ⟨m, hm'⟩ := Int.eq_ofNat_of_zero_le hm
  obtain ⟨ss, hs'⟩ := Int.eq_ofNat_of_zero_le hs0
  have hss : ss < 60 := by omega
  have hform : formatTime (JSNumber.fin q) =
      padStart (natToString m) 2 '0' ++ ":" ++
        String.mk [Nat.digitChar (ss / 10), Nat.digitChar (ss % 10)] := by
    rw [formatTime_fin q h0, hs', hm', Int.toNat_ofNat, Int.toNat_ofNat,
      padStart_two_digits ss (by omega)]
  have hm100 : q < 6000 → m < 100 := by
    intro hlt
    have : ⌊q / 60⌋ < 100 := by
      rw [Int.floor_lt]
      push_cast
      linarith
    omega
  have h100m : 6000 ≤ q → 100 ≤ m := by
    intro hge
    have : (100 : Int) ≤ ⌊q / 60⌋ := by
      rw [Int.le_floor]
      push_cast
      linarith
    omega
  have hfive : q < 6000 → formatTime (JSNumber.fin q) =
      String.mk [Nat.digitChar (m / 10), Nat.digitChar (m % 10), ':',
        Nat.digitChar (ss / 10), Nat.digitChar (ss % 10)] := by
    intro hlt
    rw [hform, padStart_two_digits m (hm100 hlt)]
    rfl
  have hmb : m < 2 ^ 53 := by
    have h1 : ((⌊q / 60⌋ : Int) : ℚ) ≤ q / 60 := Int.floor_le (q / 60)
    have h2 : q / 60 ≤ q := by linarith
    have h3 : ((m : Int) : ℚ) < 2 ^ 53 := by
      rw [← hm']
      linarith
    exact_mod_cast h3
  refine ⟨⟨m, ss, hm'.symm, hs'.symm, hss, hmb, hform,
    fun hlt => ⟨hm100 hlt, hfive hlt⟩⟩, ?_, ?_, rfl⟩
  · intro hlt
    rw [hfive hlt]
    rfl
  · intro hge
    have h3 := natToString_length_ge_three m (h100m hge)
    rw [hform]
    have : (padStart (natToString m) 2 '0' ++ ":" ++
        String.mk [Nat.digitChar (ss / 10), Nat.digitChar (ss % 10)]).data.length =
        (padStart (natToString m) 2 '0').data.length + 3 := by
      simp [String.data_append]
    rw [this]
    have : (natToString m).data.length ≤ (padStart (natToString m) 2 '0').data.length := by
      simp [padStart]
    omega

theorem formatTime_shape_witness :
    (0 : ℚ) ≤ 151 / 2 ∧ (151 / 2 : ℚ) < 2 ^ 53 ∧ (151 / 2 : ℚ) < 6000 ∧
    (formatTime (JSNumber.fin (151 / 2))).data.length = 5 :=
  ⟨by norm_num, by norm_num, by norm_num,
   (formatTime_shape (151 / 2) (by norm_num) (by norm_num)).2.1 (by norm_num)⟩

/-! ## C7 -/

/-- C7, counterexample. The directory read fails; the handler answers with
the empty list, and the folder load that receives it emits no alert. -/
theorem failed_read_gives_no_alert :
    ¬ ((readDirectory asciiLower (fun file => file) (fun dir file => dir ++ "/" ++ file)
          (Except.error "ENOENT") "/missing").entries = [] ∧
        (openFolder asciiLower (fun file => file) (fun dir file => dir ++ "/" ++ file)
          (Except.error "ENOENT") "/missing" startupState).alerts ≠ startupState.alerts) := by
  intro h
  exact h.2 rfl

/-- C7, amended. For every folder whose directory read fails, the handler
logs the error and answers with the empty entry list; the folder load that
receives this answer empties the playlist and the list element, sets the
cursor to `-1`, and emits no alert and no log line. The alert
`Error loading folder: …` is what a rejected invocation produces, and it
leaves everything else as it was. -/
theorem failed_read_empties_playlist (lower : String → String) (extname : String → String)
    (join : String → String → String) (message dirPath : String) (s : State) :
    (readDirectory lower extname join (Except.error message) dirPath).entries = [] ∧
    (readDirectory lower extname join (Except.error message) dirPath).errors
      = ["Error reading directory: " ++ message] ∧
    openFolder lower extname join (Except.error message) dirPath s
      = { s with mediaFiles := [], currentMediaIndex := -1, playlist := [] } ∧
    (openFolder lower extname join (Except.error message) dirPath s).alerts = s.alerts ∧
    (openFolder lower extname join (Except.error message) dirPath s).consoleErrors
      = s.consoleErrors ∧
    loadMediaFolder lower (Except.error message) s
      = { s with
          consoleErrors := s.consoleErrors ++ ["Error loading folder: " ++ message]
          alerts := s.alerts ++ ["Error loading folder: " ++ message] } := by
  have h : openFolder lower extname join (Except.error message) dirPath s
      = { s with mediaFiles := [], currentMediaIndex := -1, playlist := [] } := by
    unfold openFolder
    exact loadMediaFolder_empty lower s
  refine ⟨rfl, rfl, h, ?_, ?_, rfl⟩
  · rw [h]
  · rw [h]

/-! ## C9 -/

/-- C9. With an active player whose duration `d` is a number greater than 0
and whose current time `t` satisfies `0 ≤ t ≤ d`, `updateProgress` sets the
progress width to `(t / d) * 100` percent, a finite value in `[0, 100]`
(`t / d * 100` in exact arithmetic when `d` is finite, 0 when `d` is
infinite); and when the duration is not-a-number, `updateProgress` leaves
the state, so the width and both time labels, as it was. -/
theorem updateProgress_width (s : State) (r : PlayerRef) (hr : s.currentPlayer = some r) :
    (JSNumber.lt (JSNumber.fin 0) (s.player r).duration = true →
      0 ≤ (s.player r).currentTime →
      JSNumber.le (JSNumber.fin (s.player r).currentTime) (s.player r).duration = true →
      ∃ w : ℚ,
        (updateProgress s).progressWidth = some (JSNumber.fin w) ∧
        JSNumber.fin w =
          ((JSNumber.fin (s.player r).currentTime).div (s.player r).duration).mul
            (JSNumber.fin 100) ∧
        (∀ d : ℚ, (s.player r).duration = JSNumber.fin d →
          w = (s.player r).currentTime / d * 100) ∧
        0 ≤ w ∧ w ≤ 100) ∧
    ((s.player r).duration = JSNumber.nan →
      updateProgress s = s ∧
      (updateProgress s).progressWidth = s.progressWidth ∧
      (updateProgress s).currentTimeDisplay = s.currentTimeDisplay ∧
      (updateProgress s).durationDisplay = s.durationDisplay) := by
  constructor
  · intro hpos ht0 htd
    cases hd : (s.player r).duration with
    | nan => rw [hd] at hpos; simp [JSNumber.lt] at hpos
    | negInf => rw [hd] at hpos; simp [JSNumber.lt] at hpos
    | posInf =>
      refine ⟨0, ?_, ?_, ?_, le_refl _, by norm_num⟩
      · simp [updateProgress, hr, hd, JSNumber.isNaN, JSNumber.div, JSNumber.mul]
      · simp [JSNumber.div, JSNumber.mul]
      · intro d hd'; cases hd'
    | fin d =>
      rw [hd] at hpos htd
      simp only [JSNumber.lt, decide_eq_true_eq] at hpos
      simp only [JSNumber.le, decide_eq_true_eq] at htd
      have hne : ¬ d = 0 := ne_of_gt hpos
      refine ⟨(s.player r).currentTime / d * 100, ?_, ?_, ?_, ?_, ?_⟩
      · simp [updateProgress, hr, hd, JSNumber.isNaN, JSNumber.div, JSNumber.mul, hne]
      · simp [JSNumber.div, JSNumber.mul, hne]
      · intro d' hd'
        cases hd'
        rfl
      · positivity
      · have : (s.player r).currentTime / d ≤ 1 := (div_le_one hpos).mpr htd
        linarith
  · intro hnan
    have : updateProgress s = s := by
      simp [updateProgress, hr, hnan, JSNumber.isNaN]
    rw [this]
    exact ⟨rfl, rfl, rfl, rfl⟩

theorem updateProgress_width_witness :
    (updateProgress playingState).progressWidth = some (JSNumber.fin 25) := by
  obtain ⟨w, h1, -, h3, -, -⟩ :=
    (updateProgress_width playingState PlayerRef.videoPlayer rfl).1
      (by simp [JSNumber.lt, playingState, State.player])
      (by simp [playingState, State.player])
      (by simp [JSNumber.le, playingState, State.player]; norm_num)
  have hw := h3 120 rfl
  rw [h1, hw]
  simp [playingState, State.player]
  norm_num

/-! ## C10 -/

/-- The commands `play` and `pause` run `togglePlayPause`, like
`toggle-play`; without an active player they change nothing. -/
theorem play_pause_commands_toggle (lower : String → String) (s : State) :
    handlePlayerCommand lower "pause" s = togglePlayPause s ∧
    handlePlayerCommand lower "play" s = togglePlayPause s ∧
    (s.currentPlayer = none → togglePlayPause s = s) := by
  refine ⟨by simp [handlePlayerCommand], by simp [handlePlayerCommand], ?_⟩
  intro h
  simp [togglePlayPause, h]

/-- C10, the code at the failing inputs. The tray items `Pause` and `Play`
send `pause` and `play`. On a freshly loaded, paused video the command
`pause` starts playback; on a playing video the command `play` pauses it. -/
theorem tray_pause_starts_paused_player :
    (("Pause", some "pause") ∈ trayMenu ∧ ("Play", some "play") ∈ trayMenu) ∧
    ((loadMediaFile asciiLower "d/a.mp4" startupState).currentPlayer
        = some PlayerRef.videoPlayer ∧
      (loadMediaFile asciiLower "d/a.mp4" startupState).videoPlayer.paused = true ∧
      (handlePlayerCommand asciiLower "pause"
        (loadMediaFile asciiLower "d/a.mp4" startupState)).videoPlayer.paused = false) ∧
    (playingState.currentPlayer = some PlayerRef.videoPlayer ∧
      playingState.videoPlayer.paused = false ∧
      (handlePlayerCommand asciiLower "play" playingState).videoPlayer.paused = true) := by
  decide

/-! ## The extension of a path that ends in a known extension -/

theorem splitChars_ne_nil (sep : Char) (l : List Char) : splitChars sep l ≠ [] := by
  cases l with
  | nil => simp [splitChars]
  | cons c cs =>
    unfold splitChars
    split
    · simp
    · split <;> simp

theorem splitChars_no_sep (sep : Char) (x : List Char) (h : sep ∉ x) :
    splitChars sep x = [x] := by
  induction x with
  | nil => rfl
  | cons c cs ih =>
    have hc : ¬ c = sep := fun he => h (by rw [he]; exact List.mem_cons_self _ _)
    have hcs : sep ∉ cs := fun hm => h (List.mem_cons_of_mem _ hm)
    simp [splitChars, hc, ih hcs]

/-- Splitting around an occurrence of the separator: the pieces before it,
then the pieces after it. -/
theorem splitChars_append_sep (sep : Char) (a x : List Char) :
    splitChars sep (a ++ sep :: x) = splitChars sep a ++ splitChars sep x := by
  induction a with
  | nil => simp [splitChars]
  | cons c cs ih =>
    by_cases hc : c = sep
    · simp [splitChars, hc, ih]
    · rw [List.cons_append]
      cases hs : splitChars sep cs with
      | nil => exact absurd hs (splitChars_ne_nil sep cs)
      | cons seg rest =>
        rw [hs] at ih
        simp [splitChars, hc, ih, hs]

/-- The text after the last `.` of a string that ends in `.` followed by a
dot-free `x` is `x`. -/
theorem pop_split_suffix (low x : String) (hx : '.' ∉ x.data) :
    pop (split (low ++ "." ++ x) '.') = x := by
  have hdata : (low ++ "." ++ x).data = low.data ++ '.' :: x.data := by
    simp [String.data_append]
  unfold pop split
  rw [hdata, splitChars_append_sep, splitChars_no_sep '.' x.data hx, List.map_append,
    List.map_singleton]
  exact List.getLastD_concat _ _ _

/-- When the lower-cased path ends with a lower-cased extension that the
handler keeps, the extension the View computes is that extension without its
dot. -/
theorem fileExt_of_kept (lower : String → String) (path ext : String)
    (hk : lower ext ∈ hostExtensions)
    (hl : ∃ low, lower path = low ++ lower ext) :
    "." ++ fileExt lower path = lower ext ∧
    fileExt lower path ∈ ["mp4", "avi", "mkv", "mov", "mp3", "wav", "flac", "m4a"] := by
  obtain ⟨low, hlow⟩ := hl
  unfold fileExt
  rw [hlow]
  unfold hostExtensions at hk
  simp only [List.mem_cons, List.mem_singleton, List.not_mem_nil, or_false] at hk
  rcases hk with h | h | h | h | h | h | h | h <;> rw [h]
  · rw [show low ++ ".mp4" = low ++ "." ++ "mp4" by rw [String.append_assoc]; rfl,
      pop_split_suffix low "mp4" (by decide)]
    exact ⟨rfl, by decide⟩
  · rw [show low ++ ".avi" = low ++ "." ++ "avi" by rw [String.append_assoc]; rfl,
      pop_split_suffix low "avi" (by decide)]
    exact ⟨rfl, by decide⟩
  · rw [show low ++ ".mkv" = low ++ "." ++ "mkv" by rw [String.append_assoc]; rfl,
      pop_split_suffix low "mkv" (by decide)]
    exact ⟨rfl, by decide⟩
  · rw [show low ++ ".mov" = low ++ "." ++ "mov" by rw [String.append_assoc]; rfl,
      pop_split_suffix low "mov" (by decide)]
    exact ⟨rfl, by decide⟩
  · rw [show low ++ ".mp3" = low ++ "." ++ "mp3" by rw [String.append_assoc]; rfl,
      pop_split_suffix low "mp3" (by decide)]
    exact ⟨rfl, by decide⟩
  · rw [show low ++ ".wav" = low ++ "." ++ "wav" by rw [String.append_assoc]; rfl,
      pop_split_suffix low "wav" (by decide)]
    exact ⟨rfl, by decide⟩
  · rw [show low ++ ".flac" = low ++ "." ++ "flac" by rw [String.append_assoc]; rfl,
      pop_split_suffix low "flac" (by decide)]
    exact ⟨rfl, by decide⟩
  · rw [show low ++ ".m4a" = low ++ "." ++ "m4a" by rw [String.append_assoc]; rfl,
      pop_split_suffix low "m4a" (by decide)]
    exact ⟨rfl, by decide⟩

theorem loadMediaFile_alerts (lower : String → String) (p : String) (s : State)
    (h : Supported lower p) : (loadMediaFile lower p s).alerts = s.alerts := by
  unfold Supported at h
  by_cases hv : fileExt lower p ∈ videoExtensions
  · by_cases hm : (s.mediaFiles.any (fun file => decide (file.path = p))) = true <;>
    simp [loadMediaFile, hv, hm, State.setPlayer, State.player, updatePlaylist,
      highlightCurrentPlaylistItem]
  · have ha : fileExt lower p ∈ audioExtensions := by tauto
    by_cases hm : (s.mediaFiles.any (fun file => decide (file.path = p))) = true <;>
    simp [loadMediaFile, hv, ha, hm, State.setPlayer, State.player, updatePlaylist,
      highlightCurrentPlaylistItem]

/-- The entries of the handler's answer are the entries it builds from the
names it keeps. -/
theorem mem_readDirectory_entries (lower : String → String) (extname : String → String)
    (join : String → String → String) (files : List String) (dirPath : String)
    (e : MediaFile) :
    e ∈ (readDirectory lower extname join (Except.ok files) dirPath).entries ↔
      ∃ file ∈ files, lower (extname file) ∈ hostExtensions ∧
        e = { name := file
              path := join dirPath file
              type := if lower (extname file) ∈ hostAudioExtensions then MediaType.audio
                      else MediaType.video } := by
  simp only [readDirectory, List.mem_map, List.mem_filter, decide_eq_true_eq]
  constructor
  · rintro ⟨file, ⟨hf, hk⟩, rfl⟩
    exact ⟨file, hf, hk, rfl⟩
  · rintro ⟨file, hf, hk, rfl⟩
    exact ⟨file, ⟨hf, hk⟩, rfl⟩

/-- The three library facts behind the hypothesis of C11: `path.extname`
returns the end of a plain name, `path.join` of a directory and a plain name
ends with the name, and lower-casing a string that ends in a kept extension
leaves the lower-cased extension at its end. -/
theorem lowered_path_ends_with_extension (lower : String → String)
    (extname : String → String) (join : String → String → String) (dirPath file : String)
    (hx : ∃ base, file = base ++ extname file)
    (hj : ∃ pre, join dirPath file = pre ++ file)
    (hlow : ∀ a ext, lower ext ∈ hostExtensions → ∃ low, lower (a ++ ext) = low ++ lower ext)
    (hk : lower (extname file) ∈ hostExtensions) :
    ∃ low, lower (join dirPath file) = low ++ lower (extname file) := by
  obtain ⟨base, hb⟩ := hx
  obtain ⟨pre, hp⟩ := hj
  obtain ⟨low, hl⟩ := hlow (pre ++ base) (extname file) hk
  refine ⟨low, ?_⟩
  rw [hp]
  have : pre ++ file = pre ++ base ++ extname file := by
    rw [String.append_assoc, ← hb]
  rw [this, hl]

theorem asciiLower_append (a b : String) : asciiLower (a ++ b) = asciiLower a ++ asciiLower b := by
  unfold asciiLower
  rw [String.data_append, List.map_append]
  rfl

/-! ## C11 -/

/-- C11. For every directory path and every listing of file names, where
the lower-cased joined path of each kept name ends with the name's
lower-cased extension (as `path.extname`, `path.join` and `toLowerCase` make
it): every name whose lower-cased `path.extname` is one of the Host's eight
extensions yields an entry of the handler's answer, and for every entry of
that answer `loadMediaFile` accepts the entry's path (no alert, so never the
rejection), selecting the video surface exactly when the entry is typed
`video` and the audio surface exactly when it is typed `audio`. The Host's
extension list is the View's allow-list without `webm` and `ogg`, each with a
dot in front. -/
theorem host_entries_accepted (lower : String → String) (extname : String → String)
    (join : String → String → String) (files : List String) (dirPath : String)
    (hlib : ∀ file ∈ files, lower (extname file) ∈ hostExtensions →
      ∃ low, lower (join dirPath file) = low ++ lower (extname file)) :
    (∀ file ∈ files, lower (extname file) ∈ hostExtensions →
      ∃ e ∈ (readDirectory lower extname join (Except.ok files) dirPath).entries,
        e.name = file ∧ e.path = join dirPath file) ∧
    (∀ e ∈ (readDirectory lower extname join (Except.ok files) dirPath).entries,
      Supported lower e.path ∧
      (∀ s : State,
        (loadMediaFile lower e.path s).alerts = s.alerts ∧
        (loadMediaFile lower e.path s).currentPlayer = some (surfaceOf lower e.path)) ∧
      (surfaceOf lower e.path = PlayerRef.videoPlayer ↔ e.type = MediaType.video) ∧
      (surfaceOf lower e.path = PlayerRef.audioPlayer ↔ e.type = MediaType.audio)) ∧
    hostExtensions =
      ((videoExtensions ++ audioExtensions).filter
        (fun ext => decide (ext ≠ "webm" ∧ ext ≠ "ogg"))).map (fun ext => "." ++ ext) := by
  refine ⟨?_, ?_, by decide⟩
  · intro file hf hk
    exact ⟨_, (mem_readDirectory_entries lower extname join files dirPath _).mpr
      ⟨file, hf, hk, rfl⟩, rfl, rfl⟩
  · intro e he
    obtain ⟨file, hf, hk, rfl⟩ :=
      (mem_readDirectory_entries lower extname join files dirPath e).mp he
    obtain ⟨hdot, hmem⟩ := fileExt_of_kept lower (join dirPath file) (extname file) hk
      (hlib file hf hk)
    have hsup : Supported lower (join dirPath file) := by
      unfold Supported videoExtensions audioExtensions
      simp only [List.mem_cons, List.mem_singleton, List.not_mem_nil, or_false] at hmem ⊢
      tauto
    refine ⟨hsup, fun s => ⟨loadMediaFile_alerts lower _ s hsup,
      (loadMediaFile_currentPlayer lower _ s hsup).1⟩, ?_⟩
    simp only [surfaceOf]
    rw [← hdot]
    simp only [List.mem_cons, List.mem_singleton, List.not_mem_nil, or_false] at hmem
    rcases hmem with h | h | h | h | h | h | h | h <;> rw [h] <;> decide

theorem host_entries_accepted_witness :
    (∀ file ∈ sampleListing, asciiLower (nameExtname file) ∈ hostExtensions →
      ∃ low, asciiLower (posixJoin "/d" file) = low ++ asciiLower (nameExtname file)) ∧
    ({ name := "a.MP4", path := "/d/a.MP4", type := MediaType.video } : MediaFile) ∈
      (readDirectory asciiLower nameExtname posixJoin (Except.ok sampleListing) "/d").entries ∧
    Supported asciiLower "/d/a.MP4" ∧
    (surfaceOf asciiLower "/d/a.MP4" = PlayerRef.videoPlayer ↔
      MediaType.video = MediaType.video) ∧
    (loadMediaFile asciiLower "/d/b.mp3" startupState).currentPlayer
      = some PlayerRef.audioPlayer := by
  have hlib : ∀ file ∈ sampleListing, asciiLower (nameExtname file) ∈ hostExtensions →
      ∃ low, asciiLower (posixJoin "/d" file) = low ++ asciiLower (nameExtname file) := by
    intro file hf hk
    simp only [sampleListing, List.mem_cons, List.mem_singleton, List.not_mem_nil,
      or_false] at hf
    rcases hf with rfl | rfl | rfl | rfl | rfl | rfl
    · exact ⟨"/d/a", by decide⟩
    · exact ⟨"/d/b", by decide⟩
    · exact absurd hk (by decide)
    · exact absurd hk (by decide)
    · exact absurd hk (by decide)
    · exact ⟨"/d/d.tar", by decide⟩
  have hmem : ({ name := "a.MP4", path := "/d/a.MP4", type := MediaType.video } : MediaFile) ∈
      (readDirectory asciiLower nameExtname posixJoin (Except.ok sampleListing) "/d").entries := by
    decide
  have h := (host_entries_accepted asciiLower nameExtname posixJoin sampleListing "/d" hlib).2.1
    _ hmem
  exact ⟨hlib, hmem, h.1, h.2.2.1, by decide⟩

end NeoPlayer
